import Mathlib

set_option maxRecDepth 4000

/-
Verification of the ADIF codec of the qrz-logbook-api repository
(src/adif.rs), as a shallow embedding over `List Char`.

Modelling conventions, all aligned with the Rust source:
  * Rust strings are modelled as `List Char` (the tokenizer in the source
    works on `record.chars().collect::<Vec<char>>()`, i.e. on chars);
    `String::len()` (UTF-8 byte length) is modelled by `byteLen`.
  * Fallible Rust code returning `QrzLogbookResult` is modelled by `ROut`;
    the extra `panicked` outcome models a Rust panic (the source byte-slices
    `date_str[0..4]` etc., which panics when the index is not a char
    boundary).
  * `chrono::NaiveDate` / `NaiveTime` are modelled by `NDate` / `NTime`
    together with the validity checks of `from_ymd_opt` / `from_hms_opt`.
  * `f64` is modelled by its decimal text: `QsoRecord.freq` stores the text,
    `to_adif` emits it verbatim, and decode accepts exactly the strings
    matched by the documented grammar of Rust's `f64::from_str`
    (`isValidF64`).
  * `HashMap<String, String>` is modelled as an association list with
    unique keys; `fmInsert` overwrites, iteration order is list order
    (`HashMap` iteration order is unspecified in Rust).
  * The `while pos < chars.len()` tokenizer loop of `parse_single_record`
    and Rust's `str::split("<eor>")` are modelled as character-by-character
    state machines (`tokStep`, `splitStep`) folded over the input; this is
    observably equivalent to the index-based loops and keeps every
    definition structurally recursive and executable.
-/

namespace QrzAdif

/-- Rust strings / `Vec<char>` as lists of characters. -/
abbrev Str := List Char

/-- Outcome of running a piece of Rust code: `Ok`, `Err(QrzLogbookError::AdifParse msg)`,
or a panic (used where the source can byte-slice at a non-boundary). -/
inductive ROut (α : Type) where
  | ok : α → ROut α
  | err : Str → ROut α
  | panicked : ROut α
deriving DecidableEq, Repr

namespace ROut

def bind {α β : Type} : ROut α → (α → ROut β) → ROut β
  | ok a, f => f a
  | err e, _ => err e
  | panicked, _ => panicked

def map {α β : Type} (f : α → β) : ROut α → ROut β
  | ok a => ok (f a)
  | err e => err e
  | panicked => panicked

end ROut

/-- UTF-8 byte length of a string, i.e. Rust's `String::len()`. -/
def byteLen : Str → Nat
  | [] => 0
  | c :: cs => c.utf8Size + byteLen cs

/-- A character is ASCII iff it occupies one UTF-8 byte. -/
def asciiChar (c : Char) : Prop := c.utf8Size = 1

instance (c : Char) : Decidable (asciiChar c) := by unfold asciiChar; infer_instance

/-- All characters of a string are ASCII (so byte length = char count). -/
def asciiStr (s : Str) : Prop := ∀ c ∈ s, asciiChar c

instance (s : Str) : Decidable (asciiStr s) := by unfold asciiStr; infer_instance

/-- Rust `str::to_lowercase` as applied to tag names. `Char.toLower`
lowercases exactly the letters A-Z, so on ASCII text this agrees with the
source's Unicode lowercasing, while on non-ASCII letters it diverges (Rust
maps Ω to ω; this map keeps Ω). Theorems that compare the model's wire
output with the record it was built from therefore require ASCII tag names
(`GoodRecord.addl_ok` below demands ASCII `additional_fields` keys); in the
remaining theorems the map occurs identically on both sides of the stated
equation, so the divergence cancels. -/
def rustToLowercase (s : Str) : Str := s.map Char.toLower

/-- Decimal digits of `n`, most significant first (fuel-structured so that it
is kernel-executable; fuel `n` always suffices). -/
def natToStrAux : Nat → Nat → Str
  | 0, _ => []
  | fuel + 1, n =>
    if n = 0 then [] else natToStrAux fuel (n / 10) ++ [Nat.digitChar (n % 10)]

/-- Decimal representation of a `Nat`, as produced by Rust's `Display` for
unsigned integers (used for the `{}` of `format!` on a length). -/
def natToStr (n : Nat) : Str := if n = 0 then ['0'] else natToStrAux (n + 1) n

/-- Numeric value of a big-endian string of decimal digits. -/
def charsToNat (s : Str) : Nat := s.foldl (fun a c => 10 * a + (c.toNat - 48)) 0

/-- Left-pad with zeros to width `w` (chrono's `Pad::Zero` numeric padding). -/
def padZeros (w : Nat) (s : Str) : Str := List.replicate (w - s.length) '0' ++ s

/-- Strip one optional leading `+` (the sign handling of Rust's unsigned
integer `FromStr`). -/
def stripPlus : Str → Str
  | '+' :: r => r
  | s => s

/-- Rust `str::parse::<usize>()`: optional leading `+`, then one or more ASCII
digits, value below 2^64 (64-bit `usize`); anything else is `Err`. -/
def parseUsizeRust (s : Str) : Option Nat :=
  let t := stripPlus s
  if t ≠ [] ∧ t.all Char.isDigit then
    if charsToNat t < 2 ^ 64 then some (charsToNat t) else none
  else none

/-- Rust `str::parse::<u32>()`: optional leading `+`, digits, value below 2^32. -/
def parseU32Rust (s : Str) : Option Nat :=
  let t := stripPlus s
  if t ≠ [] ∧ t.all Char.isDigit then
    if charsToNat t < 2 ^ 32 then some (charsToNat t) else none
  else none

/-- Sign handling of Rust's signed integer `FromStr`: the sign bit and the
rest of the string. -/
def splitSign : Str → Bool × Str
  | '-' :: r => (true, r)
  | '+' :: r => (false, r)
  | s => (false, s)

/-- Rust `str::parse::<i32>()`: optional sign, digits, value in i32 range. -/
def parseI32Rust (s : Str) : Option Int :=
  let p := splitSign s
  if p.2 ≠ [] ∧ p.2.all Char.isDigit then
    if p.1 then
      if charsToNat p.2 ≤ 2 ^ 31 then some (-(charsToNat p.2 : Int)) else none
    else
      if charsToNat p.2 < 2 ^ 31 then some (charsToNat p.2 : Int) else none
  else none

/-- Nonempty all-digit string. -/
def digitsOnly (t : Str) : Bool := !t.isEmpty && t.all Char.isDigit

/-- Strip one optional leading sign. -/
def stripSign : Str → Str
  | '+' :: r => r
  | '-' :: r => r
  | s => s

/-- Mantissa of the documented `f64::from_str` grammar:
`Digits | Digits . Digits? | . Digits`. -/
def isMantissa (t : Str) : Bool :=
  let intPart := t.takeWhile (fun c => c != '.')
  match t.dropWhile (fun c => c != '.') with
  | [] => digitsOnly t
  | _ :: frac =>
    (digitsOnly intPart && frac.all Char.isDigit) || (intPart.isEmpty && digitsOnly frac)

/-- The set of strings accepted by Rust's `f64::from_str` (its documented
grammar): optional sign, then `inf`/`infinity`/`nan` (case-insensitive) or a
mantissa with an optional `e`/`E` exponent. -/
def isValidF64 (s : Str) : Bool :=
  let t := stripSign s
  if (rustToLowercase t == "inf".data) || (rustToLowercase t == "infinity".data)
      || (rustToLowercase t == "nan".data) then
    true
  else
    let mant := t.takeWhile (fun c => c != 'e' && c != 'E')
    match t.dropWhile (fun c => c != 'e' && c != 'E') with
    | [] => isMantissa mant
    | _ :: ex => isMantissa mant && digitsOnly (stripSign ex)

/-- A `chrono::NaiveDate` (always a valid calendar date in chrono;
validity is enforced at every construction site via `fromYmdOpt`). -/
structure NDate where
  year : Int
  month : Nat
  day : Nat
deriving DecidableEq, Repr

/-- A `chrono::NaiveTime` built by `from_hms_opt` (no leap seconds here). -/
structure NTime where
  hour : Nat
  minute : Nat
  second : Nat
deriving DecidableEq, Repr

/-- Proleptic Gregorian leap year, as used by chrono. -/
def isLeapYear (y : Int) : Bool := y % 4 == 0 && (y % 100 != 0 || y % 400 == 0)

/-- Days in a month of the proleptic Gregorian calendar. -/
def daysInMonth (y : Int) (m : Nat) : Nat :=
  match m with
  | 1 => 31
  | 2 => if isLeapYear y then 29 else 28
  | 3 => 31
  | 4 => 30
  | 5 => 31
  | 6 => 30
  | 7 => 31
  | 8 => 31
  | 9 => 30
  | 10 => 31
  | 11 => 30
  | 12 => 31
  | _ => 0

/-- `chrono::NaiveDate::from_ymd_opt`: valid month, valid day for that
month/year, and year within chrono's representable range
(`MIN_YEAR = i32::MIN >> 13`, `MAX_YEAR = i32::MAX >> 13`). -/
def fromYmdOpt (y : Int) (m d : Nat) : Option NDate :=
  if 1 ≤ m ∧ m ≤ 12 ∧ 1 ≤ d ∧ d ≤ daysInMonth y m ∧ -262144 ≤ y ∧ y ≤ 262143 then
    some ⟨y, m, d⟩
  else none

/-- `chrono::NaiveTime::from_hms_opt`. -/
def fromHmsOpt (h m s : Nat) : Option NTime :=
  if h ≤ 23 ∧ m ≤ 59 ∧ s ≤ 59 then some ⟨h, m, s⟩ else none

/-- Drop `n` UTF-8 bytes from the front; `none` models the Rust panic when the
byte index is not a char boundary or out of range. -/
def dropBytes : Str → Nat → Option Str
  | s, 0 => some s
  | [], _ + 1 => none
  | c :: cs, n + 1 =>
    if c.utf8Size ≤ n + 1 then dropBytes cs (n + 1 - c.utf8Size) else none

/-- Take `n` UTF-8 bytes from the front (same panic modelling as `dropBytes`). -/
def takeBytes : Str → Nat → Option Str
  | _, 0 => some []
  | [], _ + 1 => none
  | c :: cs, n + 1 =>
    if c.utf8Size ≤ n + 1 then (takeBytes cs (n + 1 - c.utf8Size)).map (c :: ·) else none

/-- Rust string slice `&s[a..b]`: `none` means the slice panics. -/
def byteSlice (s : Str) (a b : Nat) : Option Str :=
  if a ≤ b then (dropBytes s a).bind (fun t => takeBytes t (b - a)) else none

/-- `fn parse_date` of adif.rs: 8-byte length check, byte slices `[0..4]`,
`[4..6]`, `[6..8]` parsed as year/month/day, then `NaiveDate::from_ymd_opt`. -/
def parse_date (s : Str) : ROut NDate :=
  if byteLen s ≠ 8 then .err "Date must be 8 characters (YYYYMMDD)".data
  else
    match byteSlice s 0 4 with
    | none => .panicked
    | some ys =>
      match parseI32Rust ys with
      | none => .err "Invalid year in date".data
      | some y =>
        match byteSlice s 4 6 with
        | none => .panicked
        | some ms =>
          match parseU32Rust ms with
          | none => .err "Invalid month in date".data
          | some mo =>
            match byteSlice s 6 8 with
            | none => .panicked
            | some ds =>
              match parseU32Rust ds with
              | none => .err "Invalid day in date".data
              | some d =>
                match fromYmdOpt y mo d with
                | some date => .ok date
                | none => .err "Invalid date".data

/-- The `let time_str = if time_str.len() == 4 ...` of `fn parse_time`:
append `"00"` (seconds) to a 4-byte value. -/
def time6 (s0 : Str) : Str := if byteLen s0 = 4 then s0 ++ ['0', '0'] else s0

/-- `fn parse_time` of adif.rs: append `"00"` to a 4-byte value, require 6
bytes, byte slices `[0..2]`, `[2..4]`, `[4..6]` parsed as h/m/s, then
`NaiveTime::from_hms_opt`. -/
def parse_time (s0 : Str) : ROut NTime :=
  let s := time6 s0
  if byteLen s ≠ 6 then .err "Time must be 4 or 6 characters (HHMM or HHMMSS)".data
  else
    match byteSlice s 0 2 with
    | none => .panicked
    | some hs =>
      match parseU32Rust hs with
      | none => .err "Invalid hour in time".data
      | some h =>
        match byteSlice s 2 4 with
        | none => .panicked
        | some ms =>
          match parseU32Rust ms with
          | none => .err "Invalid minute in time".data
          | some mi =>
            match byteSlice s 4 6 with
            | none => .panicked
            | some ss =>
              match parseU32Rust ss with
              | none => .err "Invalid second in time".data
              | some se =>
                match fromHmsOpt h mi se with
                | some t => .ok t
                | none => .err "Invalid time".data

/-- `HashMap<String, String>` modelled as an association list with unique keys. -/
abbrev AList := List (Str × Str)

/-- `HashMap::get`/presence test (keys are unique, so first match suffices). -/
def fmLookup (m : AList) (k : Str) : Option Str :=
  (m.find? (fun p => p.1 == k)).map (fun p => p.2)

/-- `HashMap::remove`: the map without key `k`. -/
def fmErase (m : AList) (k : Str) : AList := m.filter (fun p => !(p.1 == k))

/-- `HashMap::insert`: overwrite any existing binding of `k`. -/
def fmInsert (m : AList) (k v : Str) : AList := fmErase m k ++ [(k, v)]

/-- State of the field tokenizer of `parse_single_record` between two
characters: outside a tag, reading a tag name, reading a length, or reading a
value with `remaining` characters still owed. -/
inductive TkState where
  | scan : TkState
  | inName : Str → TkState
  | inLen : Str → Str → TkState
  | inValue : Str → Nat → Str → TkState
deriving DecidableEq, Repr

/-- One character of the tokenizer loop of `parse_single_record`
(adif.rs lines 94-148): on `<` start a name; a name ends at `:` (length
follows) or `>` (length-less tag such as `<eor>`, consumed and ignored); the
name is lowercased; the length runs to `>` and must parse as `usize`; then
exactly `length` characters are taken as the value and inserted. -/
def tokStep1 (m : AList) (st : TkState) (c : Char) : ROut (AList × TkState) :=
  match st with
  | .scan => if c = '<' then .ok (m, .inName []) else .ok (m, .scan)
  | .inName acc =>
    if c = ':' then .ok (m, .inLen (rustToLowercase acc) [])
    else if c = '>' then .ok (m, .scan)
    else .ok (m, .inName (acc ++ [c]))
  | .inLen nm acc =>
    if c = '>' then
      match parseUsizeRust acc with
      | none => .err ("Invalid length: ".data ++ acc)
      | some n => if n = 0 then .ok (fmInsert m nm [], .scan) else .ok (m, .inValue nm n [])
    else .ok (m, .inLen nm (acc ++ [c]))
  | .inValue nm r acc =>
    if r ≤ 1 then .ok (fmInsert m nm (acc ++ [c]), .scan)
    else .ok (m, .inValue nm (r - 1) (acc ++ [c]))

/-- `tokStep1` lifted to short-circuit on an error. -/
def tokStep (s : ROut (AList × TkState)) (c : Char) : ROut (AList × TkState) :=
  match s with
  | .ok (m, st) => tokStep1 m st c
  | e => e

/-- End of input: a tag truncated in its name or length is silently dropped
(the `break`s at lines 103-105 and 122-124); input ending inside a declared
value is the "Field value extends beyond record" error of lines 135-139.
The source raises that error eagerly at the tag close, by the `usize`
comparison `value_start + length > chars.len()` (line 133); this counting
model reaches the same verdict at end of input, and the two agree exactly
when `value_start + length` does not overflow `usize` — theorems asserting
this error therefore carry that bound explicitly. When
`value_start + length ≥ 2^64` the source instead panics (the overflowing
add in debug, or the wrapped start-after-end slice of line 141 in release),
an outcome this counting model does not reach. -/
def tokFinish : AList × TkState → ROut AList
  | (_, .inValue _ _ _) => .err "Field value extends beyond record".data
  | (m, _) => .ok m

/-- Run the tokenizer loop from a given map and state `scan`. -/
def tokRun (m : AList) (s : Str) : ROut (AList × TkState) :=
  s.foldl tokStep (.ok (m, .scan))

/-- The whole tokenizer of `parse_single_record`: the loop, then the
end-of-input rule. -/
def tokenizeRecord (s : Str) : ROut AList :=
  (tokRun [] s).bind tokFinish

/-- `QsoRecord` of models.rs. `freq: Option<f64>` is modelled by the decimal
text of the value (see the header comment). -/
structure QsoRecord where
  call : Str
  station_callsign : Str
  qso_date : NDate
  time_on : NTime
  time_off : Option NTime
  band : Str
  mode : Str
  freq : Option Str
  rst_sent : Option Str
  rst_rcvd : Option Str
  qth : Option Str
  name : Option Str
  comment : Option Str
  additional_fields : AList
deriving DecidableEq, Repr

/-- `fn fields_to_qso` (adif.rs lines 153-216): remove `call`,
`station_callsign`, `band`, `mode` (each missing one is its own error), then
`qso_date` and `time_on` with their parsers, then the optional fields; every
unconsumed entry stays in `additional_fields`. Removal helper for a mandatory
field. -/
def reqField (m : AList) (k msg : Str) : ROut (Str × AList) :=
  match fmLookup m k with
  | some v => .ok (v, fmErase m k)
  | none => .err msg

/-- Removal of an optional field: the value (if any) and the reduced map. -/
def optField (m : AList) (k : Str) : Option Str × AList :=
  (fmLookup m k, fmErase m k)

/-- The `time_off` handling of `fields_to_qso`
(`.remove("time_off").map(parse_time).transpose()?`, lines 183-186). -/
def parseTimeOff : Option Str → ROut (Option NTime)
  | some s => (parse_time s).map some
  | none => .ok none

/-- The `freq` handling of `fields_to_qso`
(`.remove("freq").map(str::parse::<f64>).transpose()` with its error mapped to
"Invalid frequency format", lines 188-192). -/
def parseFreqOpt : Option Str → ROut (Option Str)
  | some s => if isValidF64 s then .ok (some s) else .err "Invalid frequency format".data
  | none => .ok none

/-- `fn fields_to_qso` itself, in the exact evaluation order of the source. -/
def fields_to_qso (fields : AList) : ROut QsoRecord :=
  (reqField fields "call".data "Missing call field".data).bind fun pc =>
  (reqField pc.2 "station_callsign".data "Missing station_callsign field".data).bind fun ps =>
  (reqField ps.2 "band".data "Missing band field".data).bind fun pb =>
  (reqField pb.2 "mode".data "Missing mode field".data).bind fun pm =>
  (reqField pm.2 "qso_date".data "Missing qso_date field".data).bind fun pd =>
  (parse_date pd.1).bind fun date =>
  (reqField pd.2 "time_on".data "Missing time_on field".data).bind fun pt =>
  (parse_time pt.1).bind fun timeOn =>
  let fOff := optField pt.2 "time_off".data
  (parseTimeOff fOff.1).bind fun timeOff =>
  let fFr := optField fOff.2 "freq".data
  (parseFreqOpt fFr.1).bind fun freq =>
  let r1 := optField fFr.2 "rst_sent".data
  let r2 := optField r1.2 "rst_rcvd".data
  let r3 := optField r2.2 "qth".data
  let r4 := optField r3.2 "name".data
  let r5 := optField r4.2 "comment".data
  .ok { call := pc.1, station_callsign := ps.1, qso_date := date, time_on := timeOn,
        time_off := timeOff, band := pb.1, mode := pm.1, freq := freq,
        rst_sent := r1.1, rst_rcvd := r2.1, qth := r3.1, name := r4.1,
        comment := r5.1, additional_fields := r5.2 }

/-- `fn parse_single_record`: tokenize, then assemble. -/
def parse_single_record (s : Str) : ROut QsoRecord :=
  (tokenizeRecord s).bind fields_to_qso

/-- The end-of-record marker emitted by `to_adif` and split on by
`parse_adif`. -/
def eorMarker : Str := "<eor>".data

/-- One character of Rust's `str::split("<eor>")`, scanning left to right:
extend the current segment; whenever its last five characters are exactly the
marker, close the segment (without the marker) and start a new one. This is
the leftmost-match, non-overlapping semantics of `str::split`. -/
def splitStep (st : List Str × Str) (c : Char) : List Str × Str :=
  let cur := st.2 ++ [c]
  if eorMarker.isSuffixOf cur then (st.1 ++ [cur.take (cur.length - 5)], [])
  else (st.1, cur)

/-- `adif.split("<eor>")` of adif.rs line 74. -/
def splitEor (s : Str) : List Str :=
  (s.foldl splitStep ([], [])).1 ++ [(s.foldl splitStep ([], [])).2]

/-- Rust `char::is_whitespace`: the Unicode `White_Space` code points. -/
def rustIsWhitespace (c : Char) : Bool :=
  let n := c.toNat
  (9 ≤ n && n ≤ 13) || n == 32 || n == 133 || n == 160 || n == 5760 ||
  (8192 ≤ n && n ≤ 8202) || n == 8232 || n == 8233 || n == 8239 || n == 8287 || n == 12288

/-- Rust `str::trim`. -/
def trim (s : Str) : Str :=
  ((s.dropWhile rustIsWhitespace).reverse.dropWhile rustIsWhitespace).reverse

/-- The record loop of `fn parse_adif` (lines 76-84): trim each partition,
skip empty ones, parse the rest in order, failing the whole call on the first
error. -/
def parse_adif_list : List Str → ROut (List QsoRecord)
  | [] => .ok []
  | r :: rs =>
    let t := trim r
    if t.isEmpty then parse_adif_list rs
    else
      match parse_single_record t with
      | .ok q => (parse_adif_list rs).map (fun qs => q :: qs)
      | .err e => .err e
      | .panicked => .panicked

/-- `fn parse_adif`: split on the marker, then the record loop. -/
def parse_adif (s : Str) : ROut (List QsoRecord) :=
  parse_adif_list (splitEor s)

/-- `fn format_time` (line 219-221): `%H%M`, i.e. two zero-padded two-digit
numbers; seconds are not emitted. -/
def pad2 (n : Nat) : Str := if n < 10 then '0' :: natToStr n else natToStr n

/-- `time.format("%H%M")`. -/
def format_time (t : NTime) : Str := pad2 t.hour ++ pad2 t.minute

/-- chrono `%Y`: the year zero-padded to 4 digits, with a `-` for negative
years (all theorems below stay in 0..9999 where this is exact). -/
def formatYear (y : Int) : Str :=
  if y < 0 then '-' :: padZeros 4 (natToStr y.natAbs) else padZeros 4 (natToStr y.toNat)

/-- `qso_date.format("%Y%m%d")`. -/
def formatDate (d : NDate) : Str := formatYear d.year ++ pad2 d.month ++ pad2 d.day

/-- One emitted field token `<name:len>value` where `len` is the byte length
of the value, exactly as every `format!("<{}:{}>{}", ...)` of `to_adif`. -/
def fieldTok (nm v : Str) : Str :=
  '<' :: (nm ++ ':' :: (natToStr (byteLen v) ++ '>' :: v))

/-- Emission of one optional field. -/
def optTok (nm : Str) : Option Str → Str
  | some v => fieldTok nm v
  | none => []

/-- Everything `fn to_adif` (lines 10-68) pushes before the `<eor>` marker, in
the source's push order; the `qso_date` tag length is the hard-coded `8` of
line 20. -/
def adifBody (q : QsoRecord) : Str :=
  fieldTok "call".data q.call ++
  fieldTok "station_callsign".data q.station_callsign ++
  ("<qso_date:8>".data ++ formatDate q.qso_date) ++
  fieldTok "time_on".data (format_time q.time_on) ++
  fieldTok "band".data q.band ++
  fieldTok "mode".data q.mode ++
  optTok "time_off".data (q.time_off.map format_time) ++
  optTok "freq".data q.freq ++
  optTok "rst_sent".data q.rst_sent ++
  optTok "rst_rcvd".data q.rst_rcvd ++
  optTok "qth".data q.qth ++
  optTok "name".data q.name ++
  optTok "comment".data q.comment ++
  q.additional_fields.foldr (fun p acc => fieldTok (rustToLowercase p.1) p.2 ++ acc) []

/-- `fn to_adif`: the fields joined, terminated by the `<eor>` marker. -/
def to_adif (q : QsoRecord) : Str := adifBody q ++ eorMarker

/-! Basic facts about byte lengths and ASCII strings. -/

theorem byteLen_append (a b : Str) : byteLen (a ++ b) = byteLen a + byteLen b := by
  induction a with
  | nil => simp [byteLen]
  | cons c cs ih => simp [byteLen, ih]; omega

theorem byteLen_eq_length (s : Str) (h : asciiStr s) : byteLen s = s.length := by
  induction s with
  | nil => rfl
  | cons c cs ih =>
    have hc : c.utf8Size = 1 := h c (by simp)
    have : asciiStr cs := fun d hd => h d (by simp [hd])
    simp [byteLen, hc, ih this]
    omega

theorem asciiStr_append {a b : Str} (ha : asciiStr a) (hb : asciiStr b) :
    asciiStr (a ++ b) := by
  intro c hc
  rcases List.mem_append.mp hc with h | h
  · exact ha c h
  · exact hb c h

/-! Decimal printing (`natToStr`) and its relation to the numeric parsers. -/

theorem natToStrAux_zero (f : Nat) : natToStrAux f 0 = [] := by
  cases f <;> simp [natToStrAux]

theorem natToStrAux_mem :
    ∀ f n, n ≤ f → ∀ c ∈ natToStrAux f n, ∃ d, d < 10 ∧ c = Nat.digitChar d := by
  intro f
  induction f with
  | zero => intro n hn c hc; simp [natToStrAux] at hc
  | succ f ih =>
    intro n hn c hc
    by_cases h0 : n = 0
    · subst h0; simp [natToStrAux] at hc
    · simp only [natToStrAux, if_neg h0, List.mem_append, List.mem_singleton] at hc
      rcases hc with hc | hc
      · have hlt : n / 10 ≤ f := by
          have : n / 10 < n := Nat.div_lt_self (by omega) (by omega)
          omega
        exact ih (n / 10) hlt c hc
      · exact ⟨n % 10, Nat.mod_lt _ (by omega), hc⟩

theorem natToStr_mem (n : Nat) :
    ∀ c ∈ natToStr n, ∃ d, d < 10 ∧ c = Nat.digitChar d := by
  intro c hc
  unfold natToStr at hc
  by_cases h0 : n = 0
  · subst h0; simp at hc; exact ⟨0, by omega, hc⟩
  · rw [if_neg h0] at hc
    exact natToStrAux_mem (n + 1) n (by omega) c hc

theorem digitChar_ascii : ∀ d : Nat, d < 10 → asciiChar (Nat.digitChar d) := by decide

theorem digitChar_isDigit : ∀ d : Nat, d < 10 → (Nat.digitChar d).isDigit = true := by decide

theorem digitChar_toNat : ∀ d : Nat, d < 10 → (Nat.digitChar d).toNat = 48 + d := by decide

theorem digitChar_ne_plus : ∀ d : Nat, d < 10 → Nat.digitChar d ≠ '+' := by decide

theorem digitChar_ne_minus : ∀ d : Nat, d < 10 → Nat.digitChar d ≠ '-' := by decide

theorem digitChar_ne_gt : ∀ d : Nat, d < 10 → Nat.digitChar d ≠ '>' := by decide

theorem digitChar_ne_colon : ∀ d : Nat, d < 10 → Nat.digitChar d ≠ ':' := by decide

theorem digitChar_ne_lt : ∀ d : Nat, d < 10 → Nat.digitChar d ≠ '<' := by decide

theorem natToStr_ascii (n : Nat) : asciiStr (natToStr n) := by
  intro c hc
  obtain ⟨d, hd, rfl⟩ := natToStr_mem n c hc
  exact digitChar_ascii d hd

theorem natToStr_ne_nil (n : Nat) : natToStr n ≠ [] := by
  unfold natToStr
  by_cases h0 : n = 0
  · simp [h0]
  · rw [if_neg h0]
    cases n with
    | zero => exact absurd rfl h0
    | succ m => simp [natToStrAux, h0]

theorem charsToNat_aux :
    ∀ f n a, n ≤ f →
      (natToStrAux f n).foldl (fun a c => 10 * a + (c.toNat - 48)) a =
        a * 10 ^ (natToStrAux f n).length + n := by
  intro f
  induction f with
  | zero =>
    intro n a hn
    have : n = 0 := by omega
    subst this
    simp [natToStrAux]
  | succ f ih =>
    intro n a hn
    by_cases h0 : n = 0
    · subst h0; simp [natToStrAux]
    · have hlt : n / 10 ≤ f := by
        have : n / 10 < n := Nat.div_lt_self (by omega) (by omega)
        omega
      have hdig : (Nat.digitChar (n % 10)).toNat = 48 + n % 10 :=
        digitChar_toNat _ (Nat.mod_lt _ (by omega))
      simp only [natToStrAux, if_neg h0, List.foldl_append, List.foldl_cons, List.foldl_nil,
        List.length_append, List.length_cons, List.length_nil]
      rw [ih (n / 10) a hlt, hdig]
      have hnm : 10 * (n / 10) + n % 10 = n := Nat.div_add_mod n 10
      ring_nf
      omega

theorem charsToNat_natToStr (n : Nat) : charsToNat (natToStr n) = n := by
  unfold charsToNat natToStr
  by_cases h0 : n = 0
  · subst h0; decide
  · rw [if_neg h0, charsToNat_aux (n + 1) n 0 (by omega)]
    simp

theorem charsToNat_padZeros (w : Nat) (s : Str) :
    charsToNat (padZeros w s) = charsToNat s := by
  unfold charsToNat padZeros
  rw [List.foldl_append]
  congr 1
  generalize w - s.length = k
  induction k with
  | zero => rfl
  | succ k ih => simpa [List.replicate_succ] using ih

theorem padZeros_mem (w : Nat) (s : Str) :
    ∀ c ∈ padZeros w s, c = '0' ∨ c ∈ s := by
  intro c hc
  rcases List.mem_append.mp hc with h | h
  · exact Or.inl (List.eq_of_mem_replicate h)
  · exact Or.inr h

/-- Generic parse-back: a nonempty all-digit string is parsed by the `usize`
parser to its numeric value. -/
theorem parseUsize_digits (t : Str) (h0 : t ≠ [])
    (hd : ∀ c ∈ t, ∃ d, d < 10 ∧ c = Nat.digitChar d)
    (hb : charsToNat t < 2 ^ 64) :
    parseUsizeRust t = some (charsToNat t) := by
  have hall : t.all Char.isDigit = true := by
    rw [List.all_eq_true]
    intro c hc
    obtain ⟨d, hdlt, rfl⟩ := hd c hc
    exact digitChar_isDigit d hdlt
  have hstrip : stripPlus t = t := by
    have hplus : ∀ r : Str, t ≠ '+' :: r := by
      intro r ht
      obtain ⟨d, hdlt, hdc⟩ := hd '+' (by rw [ht]; simp)
      exact digitChar_ne_plus d hdlt hdc.symm
    unfold stripPlus
    split
    · rename_i u tl
      exact absurd rfl (hplus tl)
    · rfl
  unfold parseUsizeRust
  simp only [hstrip]
  simp [h0, hall]
  simpa using hb

/-- Parse-back for the `u32` parser. -/
theorem parseU32_digits (t : Str) (h0 : t ≠ [])
    (hd : ∀ c ∈ t, ∃ d, d < 10 ∧ c = Nat.digitChar d)
    (hb : charsToNat t < 2 ^ 32) :
    parseU32Rust t = some (charsToNat t) := by
  have hall : t.all Char.isDigit = true := by
    rw [List.all_eq_true]
    intro c hc
    obtain ⟨d, hdlt, rfl⟩ := hd c hc
    exact digitChar_isDigit d hdlt
  have hstrip : stripPlus t = t := by
    have hplus : ∀ r : Str, t ≠ '+' :: r := by
      intro r ht
      obtain ⟨d, hdlt, hdc⟩ := hd '+' (by rw [ht]; simp)
      exact digitChar_ne_plus d hdlt hdc.symm
    unfold stripPlus
    split
    · rename_i u tl
      exact absurd rfl (hplus tl)
    · rfl
  unfold parseU32Rust
  simp only [hstrip]
  simp [h0, hall]
  simpa using hb

/-- Parse-back for the `i32` parser (nonnegative inputs). -/
theorem parseI32_digits (t : Str) (h0 : t ≠ [])
    (hd : ∀ c ∈ t, ∃ d, d < 10 ∧ c = Nat.digitChar d)
    (hb : charsToNat t < 2 ^ 31) :
    parseI32Rust t = some (charsToNat t : Int) := by
  have hall : t.all Char.isDigit = true := by
    rw [List.all_eq_true]
    intro c hc
    obtain ⟨d, hdlt, rfl⟩ := hd c hc
    exact digitChar_isDigit d hdlt
  have hsplit : splitSign t = (false, t) := by
    have hplus : ∀ r : Str, t ≠ '+' :: r := by
      intro r ht
      obtain ⟨d, hdlt, hdc⟩ := hd '+' (by rw [ht]; simp)
      exact digitChar_ne_plus d hdlt hdc.symm
    have hminus : ∀ r : Str, t ≠ '-' :: r := by
      intro r ht
      obtain ⟨d, hdlt, hdc⟩ := hd '-' (by rw [ht]; simp)
      exact digitChar_ne_minus d hdlt hdc.symm
    unfold splitSign
    split
    · rename_i u tl
      exact absurd rfl (hminus tl)
    · rename_i u tl
      exact absurd rfl (hplus tl)
    · rfl
  unfold parseI32Rust
  simp only [hsplit]
  simp [h0, hall]
  simpa using hb

end QrzAdif

namespace QrzAdif

/-! Lengths of the decimal representations used by the date/time formatters. -/

theorem natToStrAux_length_le :
    ∀ f n k, n ≤ f → n < 10 ^ k → (natToStrAux f n).length ≤ k := by
  intro f
  induction f with
  | zero =>
    intro n k hn _
    have : n = 0 := by omega
    subst this
    simp [natToStrAux]
  | succ f ih =>
    intro n k hn hk
    by_cases h0 : n = 0
    · subst h0; simp [natToStrAux]
    · have hk1 : 1 ≤ k := by
        by_contra hlt
        have : k = 0 := by omega
        subst this
        simp at hk
        omega
      have hdiv : n / 10 < 10 ^ (k - 1) := by
        have h10 : 10 * (n / 10) ≤ n := Nat.mul_div_le n 10
        have : n < 10 * 10 ^ (k - 1) := by
          have : 10 ^ k = 10 * 10 ^ (k - 1) := by
            conv_lhs => rw [show k = 1 + (k - 1) by omega]
            rw [pow_add, pow_one]
          omega
        omega
      have hle : n / 10 ≤ f := by
        have : n / 10 < n := Nat.div_lt_self (by omega) (by omega)
        omega
      have := ih (n / 10) (k - 1) hle hdiv
      simp only [natToStrAux, if_neg h0, List.length_append, List.length_cons,
        List.length_nil]
      omega

theorem natToStr_length_le (n k : Nat) (hk : 1 ≤ k) (h : n < 10 ^ k) :
    (natToStr n).length ≤ k := by
  unfold natToStr
  by_cases h0 : n = 0
  · simp [h0]; omega
  · rw [if_neg h0]
    exact natToStrAux_length_le (n + 1) n k (by omega) h

theorem natToStrAux_length_pos (f n : Nat) (h0 : 0 < n) (hn : n ≤ f) :
    1 ≤ (natToStrAux f n).length := by
  cases f with
  | zero => omega
  | succ f =>
    simp only [natToStrAux, if_neg (by omega : ¬n = 0), List.length_append]
    simp

theorem natToStr_length_one (n : Nat) (h : n < 10) : (natToStr n).length = 1 := by
  have h1 := natToStr_length_le n 1 (by omega) (by simpa using h)
  have h2 : natToStr n ≠ [] := natToStr_ne_nil n
  have := List.length_pos.mpr h2
  omega

theorem natToStr_length_two (n : Nat) (h1 : 10 ≤ n) (h2 : n < 100) :
    (natToStr n).length = 2 := by
  have hle := natToStr_length_le n 2 (by omega) (by norm_num; omega)
  have hge : 2 ≤ (natToStr n).length := by
    unfold natToStr
    rw [if_neg (by omega : ¬n = 0)]
    have hd : 0 < n / 10 := by omega
    simp only [natToStrAux, if_neg (by omega : ¬n = 0), List.length_append,
      List.length_cons, List.length_nil]
    have := natToStrAux_length_pos n (n / 10) hd
      (by
        have : n / 10 < n := Nat.div_lt_self (by omega) (by omega)
        omega)
    omega
  omega

theorem padZeros_length (w : Nat) (s : Str) (h : s.length ≤ w) :
    (padZeros w s).length = w := by
  simp [padZeros]
  omega

theorem pad2_length (n : Nat) (h : n < 100) : (pad2 n).length = 2 := by
  unfold pad2
  by_cases h10 : n < 10
  · rw [if_pos h10]
    simp [natToStr_length_one n h10]
  · rw [if_neg h10]
    exact natToStr_length_two n (by omega) h

theorem pad2_mem (n : Nat) : ∀ c ∈ pad2 n, ∃ d, d < 10 ∧ c = Nat.digitChar d := by
  intro c hc
  unfold pad2 at hc
  by_cases h10 : n < 10
  · rw [if_pos h10] at hc
    rcases List.mem_cons.mp hc with h | h
    · exact ⟨0, by omega, h⟩
    · exact natToStr_mem n c h
  · rw [if_neg h10] at hc
    exact natToStr_mem n c hc

theorem pad2_ascii (n : Nat) : asciiStr (pad2 n) := by
  intro c hc
  obtain ⟨d, hd, rfl⟩ := pad2_mem n c hc
  exact digitChar_ascii d hd

theorem charsToNat_cons_zero (s : Str) : charsToNat ('0' :: s) = charsToNat s := rfl

theorem charsToNat_pad2 (n : Nat) : charsToNat (pad2 n) = n := by
  unfold pad2
  by_cases h10 : n < 10
  · rw [if_pos h10, charsToNat_cons_zero, charsToNat_natToStr]
  · rw [if_neg h10, charsToNat_natToStr]

theorem formatYear_nonneg (y : Int) (hy : 0 ≤ y) :
    formatYear y = padZeros 4 (natToStr y.toNat) := by
  unfold formatYear
  rw [if_neg (by omega)]

theorem formatYear_length (y : Int) (h0 : 0 ≤ y) (h1 : y ≤ 9999) :
    (formatYear y).length = 4 := by
  rw [formatYear_nonneg y h0]
  exact padZeros_length 4 _ (natToStr_length_le _ 4 (by omega) (by norm_num; omega))

theorem formatYear_mem (y : Int) (h0 : 0 ≤ y) :
    ∀ c ∈ formatYear y, ∃ d, d < 10 ∧ c = Nat.digitChar d := by
  rw [formatYear_nonneg y h0]
  intro c hc
  rcases padZeros_mem 4 _ c hc with h | h
  · exact ⟨0, by omega, h⟩
  · exact natToStr_mem _ c h

theorem formatDate_mem (d : NDate) (h0 : 0 ≤ d.year) :
    ∀ c ∈ formatDate d, ∃ k, k < 10 ∧ c = Nat.digitChar k := by
  intro c hc
  unfold formatDate at hc
  rcases List.mem_append.mp hc with h | h
  · rcases List.mem_append.mp h with h2 | h2
    · exact formatYear_mem d.year h0 c h2
    · exact pad2_mem _ c h2
  · exact pad2_mem _ c h

theorem formatDate_ascii (d : NDate) (h0 : 0 ≤ d.year) : asciiStr (formatDate d) := by
  intro c hc
  obtain ⟨k, hk, rfl⟩ := formatDate_mem d h0 c hc
  exact digitChar_ascii k hk

theorem formatDate_length (d : NDate) (h0 : 0 ≤ d.year) (h1 : d.year ≤ 9999)
    (hm : d.month < 100) (hd : d.day < 100) : (formatDate d).length = 8 := by
  unfold formatDate
  simp [formatYear_length d.year h0 h1, pad2_length _ hm, pad2_length _ hd]

theorem format_time_length (t : NTime) (hh : t.hour < 100) (hm : t.minute < 100) :
    (format_time t).length = 4 := by
  unfold format_time
  simp [pad2_length _ hh, pad2_length _ hm]

theorem format_time_mem (t : NTime) :
    ∀ c ∈ format_time t, ∃ d, d < 10 ∧ c = Nat.digitChar d := by
  intro c hc
  unfold format_time at hc
  rcases List.mem_append.mp hc with h | h
  · exact pad2_mem _ c h
  · exact pad2_mem _ c h

theorem format_time_ascii (t : NTime) : asciiStr (format_time t) := by
  intro c hc
  obtain ⟨d, hd, rfl⟩ := format_time_mem t c hc
  exact digitChar_ascii d hd

/-! Byte slicing over ASCII strings is plain take/drop. -/

theorem dropBytes_ascii :
    ∀ (s : Str) (n : Nat), asciiStr s → n ≤ s.length → dropBytes s n = some (s.drop n) := by
  intro s
  induction s with
  | nil =>
    intro n _ hn
    simp only [List.length_nil, Nat.le_zero] at hn
    subst hn
    rfl
  | cons c cs ih =>
    intro n hascii hn
    cases n with
    | zero => rfl
    | succ m =>
      have hc : c.utf8Size = 1 := hascii c (by simp)
      have hcs : asciiStr cs := fun d hd => hascii d (by simp [hd])
      have hm : m ≤ cs.length := by simp at hn; omega
      simp only [dropBytes, hc, if_pos (by omega : 1 ≤ m + 1)]
      have he : m + 1 - 1 = m := by omega
      rw [he, ih m hcs hm]
      rfl

theorem takeBytes_ascii :
    ∀ (s : Str) (n : Nat), asciiStr s → n ≤ s.length → takeBytes s n = some (s.take n) := by
  intro s
  induction s with
  | nil =>
    intro n _ hn
    simp only [List.length_nil, Nat.le_zero] at hn
    subst hn
    rfl
  | cons c cs ih =>
    intro n hascii hn
    cases n with
    | zero => rfl
    | succ m =>
      have hc : c.utf8Size = 1 := hascii c (by simp)
      have hcs : asciiStr cs := fun d hd => hascii d (by simp [hd])
      have hm : m ≤ cs.length := by simp at hn; omega
      simp only [takeBytes, hc, if_pos (by omega : 1 ≤ m + 1)]
      have he : m + 1 - 1 = m := by omega
      rw [he, ih m hcs hm]
      rfl

theorem byteSlice_ascii (s : Str) (a b : Nat) (h : asciiStr s) (hab : a ≤ b)
    (hb : b ≤ s.length) : byteSlice s a b = some ((s.drop a).take (b - a)) := by
  unfold byteSlice
  rw [if_pos hab, dropBytes_ascii s a h (by omega)]
  have hd : asciiStr (s.drop a) := fun c hc => h c (List.mem_of_mem_drop hc)
  have : b - a ≤ (s.drop a).length := by
    rw [List.length_drop]
    omega
  rw [Option.some_bind, takeBytes_ascii _ _ hd this]

end QrzAdif

namespace QrzAdif

/-! Decoding the emitted date and time strings recovers the original values. -/

theorem daysInMonth_le (y : Int) (m : Nat) : daysInMonth y m ≤ 31 := by
  unfold daysInMonth
  split
  any_goals omega
  split <;> omega

theorem parse_date_formatDate (d : NDate) (h0 : 0 ≤ d.year) (h1 : d.year ≤ 9999)
    (hm1 : 1 ≤ d.month) (hm2 : d.month ≤ 12) (hd1 : 1 ≤ d.day)
    (hd2 : d.day ≤ daysInMonth d.year d.month) :
    parse_date (formatDate d) = .ok d := by
  have hmlt : d.month < 100 := by omega
  have hdlt : d.day < 100 := by
    have := daysInMonth_le d.year d.month
    omega
  have hascii := formatDate_ascii d h0
  have hlen : (formatDate d).length = 8 := formatDate_length d h0 h1 hmlt hdlt
  have hyl : (formatYear d.year).length = 4 := formatYear_length d.year h0 h1
  have hbl : byteLen (formatDate d) = 8 := by rw [byteLen_eq_length _ hascii, hlen]
  have hy4 : (formatDate d).take 4 = formatYear d.year := by
    unfold formatDate
    rw [List.append_assoc, List.take_left' hyl]
  have hmtk : ((formatDate d).drop 4).take 2 = pad2 d.month := by
    unfold formatDate
    rw [List.append_assoc, List.drop_left' hyl, List.take_left' (pad2_length _ hmlt)]
  have hdtk : ((formatDate d).drop 6).take 2 = pad2 d.day := by
    unfold formatDate
    rw [List.drop_left' (by simp [hyl, pad2_length _ hmlt] : (formatYear d.year ++ pad2 d.month).length = 6)]
    exact List.take_of_length_le (le_of_eq (pad2_length _ hdlt))
  have hs1 : byteSlice (formatDate d) 0 4 = some (formatYear d.year) := by
    rw [byteSlice_ascii _ _ _ hascii (by omega) (by omega)]
    simp [hy4]
  have hs2 : byteSlice (formatDate d) 4 6 = some (pad2 d.month) := by
    rw [byteSlice_ascii _ _ _ hascii (by omega) (by omega)]
    simpa using hmtk
  have hs3 : byteSlice (formatDate d) 6 8 = some (pad2 d.day) := by
    rw [byteSlice_ascii _ _ _ hascii (by omega) (by omega)]
    simpa using hdtk
  have hpy : parseI32Rust (formatYear d.year) = some d.year := by
    rw [formatYear_nonneg _ h0]
    have hpl : (padZeros 4 (natToStr d.year.toNat)).length = 4 :=
      padZeros_length 4 _ (natToStr_length_le _ 4 (by omega) (by norm_num; omega))
    have hnn : padZeros 4 (natToStr d.year.toNat) ≠ [] := by
      intro hcontra
      rw [hcontra] at hpl
      simp at hpl
    have hdg : ∀ c ∈ padZeros 4 (natToStr d.year.toNat), ∃ k, k < 10 ∧ c = Nat.digitChar k := by
      intro c hc
      rcases padZeros_mem _ _ c hc with h | h
      · exact ⟨0, by omega, h⟩
      · exact natToStr_mem _ c h
    rw [parseI32_digits _ hnn hdg
      (by rw [charsToNat_padZeros, charsToNat_natToStr]; omega)]
    rw [charsToNat_padZeros, charsToNat_natToStr]
    congr 1
    omega
  have hpm : parseU32Rust (pad2 d.month) = some d.month := by
    have hnn : pad2 d.month ≠ [] := by
      intro h
      have := pad2_length d.month hmlt
      rw [h] at this
      simp at this
    rw [parseU32_digits _ hnn (pad2_mem _) (by rw [charsToNat_pad2]; omega), charsToNat_pad2]
  have hpd : parseU32Rust (pad2 d.day) = some d.day := by
    have hnn : pad2 d.day ≠ [] := by
      intro h
      have := pad2_length d.day hdlt
      rw [h] at this
      simp at this
    rw [parseU32_digits _ hnn (pad2_mem _) (by rw [charsToNat_pad2]; omega), charsToNat_pad2]
  unfold parse_date
  rw [if_neg (show ¬byteLen (formatDate d) ≠ 8 by simp [hbl])]
  simp only [hs1, hpy, hs2, hpm, hs3, hpd]
  unfold fromYmdOpt
  rw [if_pos ⟨hm1, hm2, hd1, hd2, by omega, by omega⟩]

theorem parse_time_format_time (t : NTime) (hh : t.hour ≤ 23) (hm : t.minute ≤ 59) :
    parse_time (format_time t) = .ok ⟨t.hour, t.minute, 0⟩ := by
  have hhl : (pad2 t.hour).length = 2 := pad2_length _ (by omega)
  have hml : (pad2 t.minute).length = 2 := pad2_length _ (by omega)
  have hascii : asciiStr (format_time t) := format_time_ascii t
  have hlen : (format_time t).length = 4 := format_time_length t (by omega) (by omega)
  have hbl : byteLen (format_time t) = 4 := by rw [byteLen_eq_length _ hascii, hlen]
  have hascii6 : asciiStr (format_time t ++ ['0', '0']) :=
    asciiStr_append hascii (by decide)
  have hlen6 : (format_time t ++ ['0', '0']).length = 6 := by simp [hlen]
  have hbl6 : byteLen (format_time t ++ ['0', '0']) = 6 := by
    rw [byteLen_eq_length _ hascii6, hlen6]
  have hhour : (format_time t ++ ['0', '0']).take 2 = pad2 t.hour := by
    unfold format_time
    rw [List.append_assoc, List.take_left' hhl]
  have hminute : ((format_time t ++ ['0', '0']).drop 2).take 2 = pad2 t.minute := by
    unfold format_time
    rw [List.append_assoc, List.drop_left' hhl, List.take_left' hml]
  have hsec : ((format_time t ++ ['0', '0']).drop 4).take 2 = ['0', '0'] := by
    rw [List.drop_left' (by simp [hlen] : (format_time t).length = 4)]
    rfl
  have hs1 : byteSlice (format_time t ++ ['0', '0']) 0 2 = some (pad2 t.hour) := by
    rw [byteSlice_ascii _ _ _ hascii6 (by omega) (by omega)]
    simp [hhour]
  have hs2 : byteSlice (format_time t ++ ['0', '0']) 2 4 = some (pad2 t.minute) := by
    rw [byteSlice_ascii _ _ _ hascii6 (by omega) (by omega)]
    simpa using hminute
  have hs3 : byteSlice (format_time t ++ ['0', '0']) 4 6 = some ['0', '0'] := by
    rw [byteSlice_ascii _ _ _ hascii6 (by omega) (by omega)]
    simpa using hsec
  have hph : parseU32Rust (pad2 t.hour) = some t.hour := by
    have hnn : pad2 t.hour ≠ [] := by
      intro h
      rw [h] at hhl
      simp at hhl
    rw [parseU32_digits _ hnn (pad2_mem _) (by rw [charsToNat_pad2]; omega), charsToNat_pad2]
  have hpm : parseU32Rust (pad2 t.minute) = some t.minute := by
    have hnn : pad2 t.minute ≠ [] := by
      intro h
      rw [h] at hml
      simp at hml
    rw [parseU32_digits _ hnn (pad2_mem _) (by rw [charsToNat_pad2]; omega), charsToNat_pad2]
  have hps : parseU32Rust ['0', '0'] = some 0 := by decide
  have h6 : time6 (format_time t) = format_time t ++ ['0', '0'] := by
    unfold time6
    rw [if_pos hbl]
  unfold parse_time
  simp only [h6]
  rw [if_neg (show ¬byteLen (format_time t ++ ['0', '0']) ≠ 6 by simp [hbl6])]
  simp only [hs1, hph, hs2, hpm, hs3, hps]
  unfold fromHmsOpt
  rw [if_pos ⟨hh, hm, by omega⟩]

end QrzAdif

namespace QrzAdif

/-! Single-step equations for the tokenizer. -/

theorem tokStep_ok (m : AList) (st : TkState) (c : Char) :
    tokStep (.ok (m, st)) c = tokStep1 m st c := rfl

theorem tokStep1_scan_lt (m : AList) : tokStep1 m .scan '<' = .ok (m, .inName []) := rfl

theorem tokStep1_scan_other (m : AList) (c : Char) (h : c ≠ '<') :
    tokStep1 m .scan c = .ok (m, .scan) := by
  simp only [tokStep1]
  rw [if_neg h]

theorem tokStep1_inName_colon (m : AList) (acc : Str) :
    tokStep1 m (.inName acc) ':' = .ok (m, .inLen (rustToLowercase acc) []) := rfl

theorem tokStep1_inName_gt (m : AList) (acc : Str) :
    tokStep1 m (.inName acc) '>' = .ok (m, .scan) := rfl

theorem tokStep1_inName_other (m : AList) (acc : Str) (c : Char) (h1 : c ≠ ':')
    (h2 : c ≠ '>') : tokStep1 m (.inName acc) c = .ok (m, .inName (acc ++ [c])) := by
  simp only [tokStep1]
  rw [if_neg h1, if_neg h2]

theorem tokStep1_inLen_other (m : AList) (nm acc : Str) (c : Char) (h : c ≠ '>') :
    tokStep1 m (.inLen nm acc) c = .ok (m, .inLen nm (acc ++ [c])) := by
  simp only [tokStep1]
  rw [if_neg h]

theorem tokStep1_inLen_gt_none (m : AList) (nm acc : Str) (h : parseUsizeRust acc = none) :
    tokStep1 m (.inLen nm acc) '>' = .err ("Invalid length: ".data ++ acc) := by
  simp only [tokStep1, if_true, h]

theorem tokStep1_inLen_gt_zero (m : AList) (nm acc : Str)
    (h : parseUsizeRust acc = some 0) :
    tokStep1 m (.inLen nm acc) '>' = .ok (fmInsert m nm [], .scan) := by
  simp only [tokStep1, if_true, h]

theorem tokStep1_inLen_gt_pos (m : AList) (nm acc : Str) (n : Nat)
    (h : parseUsizeRust acc = some n) (hn : n ≠ 0) :
    tokStep1 m (.inLen nm acc) '>' = .ok (m, .inValue nm n []) := by
  simp only [tokStep1, if_true, h]
  simp [hn]

theorem tokStep1_inValue_last (m : AList) (nm acc : Str) (r : Nat) (c : Char)
    (h : r ≤ 1) : tokStep1 m (.inValue nm r acc) c = .ok (fmInsert m nm (acc ++ [c]), .scan) := by
  simp only [tokStep1]
  rw [if_pos h]

theorem tokStep1_inValue_more (m : AList) (nm acc : Str) (r : Nat) (c : Char)
    (h : ¬r ≤ 1) :
    tokStep1 m (.inValue nm r acc) c = .ok (m, .inValue nm (r - 1) (acc ++ [c])) := by
  simp only [tokStep1]
  rw [if_neg h]

/-! Runs of the tokenizer over whole text segments. -/

theorem tokRun_inName (m : AList) (xs : Str)
    (h : ∀ c ∈ xs, c ≠ ':' ∧ c ≠ '>') :
    ∀ acc, xs.foldl tokStep (.ok (m, .inName acc)) = .ok (m, .inName (acc ++ xs)) := by
  induction xs with
  | nil => intro acc; simp
  | cons c cs ih =>
    intro acc
    have hc := h c (by simp)
    rw [List.foldl_cons, tokStep_ok, tokStep1_inName_other m acc c hc.1 hc.2,
      ih (fun d hd => h d (by simp [hd])) (acc ++ [c])]
    simp

theorem tokRun_inLen (m : AList) (nm : Str) (xs : Str) (h : ∀ c ∈ xs, c ≠ '>') :
    ∀ acc, xs.foldl tokStep (.ok (m, .inLen nm acc)) = .ok (m, .inLen nm (acc ++ xs)) := by
  induction xs with
  | nil => intro acc; simp
  | cons c cs ih =>
    intro acc
    rw [List.foldl_cons, tokStep_ok, tokStep1_inLen_other m nm acc c (h c (by simp)),
      ih (fun d hd => h d (by simp [hd])) (acc ++ [c])]
    simp

theorem tokRun_inValue_exact (m : AList) (nm : Str) (xs : Str) (hne : xs ≠ []) :
    ∀ (r : Nat) (acc : Str), xs.length = r →
      xs.foldl tokStep (.ok (m, .inValue nm r acc)) = .ok (fmInsert m nm (acc ++ xs), .scan) := by
  induction xs with
  | nil => exact absurd rfl hne
  | cons c cs ih =>
    intro r acc hr
    cases cs with
    | nil =>
      have : r = 1 := by simpa using hr.symm
      subst this
      rw [List.foldl_cons, tokStep_ok, tokStep1_inValue_last m nm acc 1 c (by omega)]
      simp
    | cons c2 cs2 =>
      have hr2 : ¬r ≤ 1 := by
        rw [← hr]
        simp
      rw [List.foldl_cons, tokStep_ok, tokStep1_inValue_more m nm acc r c hr2,
        ih (by simp) (r - 1) (acc ++ [c]) (by rw [← hr]; simp)]
      simp

theorem tokRun_inValue_partial (m : AList) (nm : Str) (xs : Str) :
    ∀ (r : Nat) (acc : Str), xs.length < r →
      xs.foldl tokStep (.ok (m, .inValue nm r acc)) =
        .ok (m, .inValue nm (r - xs.length) (acc ++ xs)) := by
  induction xs with
  | nil => intro r acc _; simp
  | cons c cs ih =>
    intro r acc hr
    rw [List.length_cons] at hr
    have hr2 : ¬r ≤ 1 := by omega
    rw [List.foldl_cons, tokStep_ok, tokStep1_inValue_more m nm acc r c hr2,
      ih (r - 1) (acc ++ [c]) (by omega)]
    have h1 : r - 1 - cs.length = r - (cs.length + 1) := by omega
    simp [h1]

/-- Running the tokenizer over a complete field token `<nm:L>v` from scan state
inserts the lowercased name with exactly the declared number of characters. -/
theorem tokRun_fieldTok_gen (m : AList) (nm L v : Str)
    (hnm : ∀ c ∈ nm, c ≠ ':' ∧ c ≠ '>')
    (hL : ∀ c ∈ L, c ≠ '>')
    (hparse : parseUsizeRust L = some v.length) :
    ('<' :: (nm ++ ':' :: (L ++ '>' :: v))).foldl tokStep (.ok (m, .scan)) =
      .ok (fmInsert m (rustToLowercase nm) v, .scan) := by
  rw [List.foldl_cons, tokStep_ok, tokStep1_scan_lt, List.foldl_append,
    tokRun_inName m nm hnm [], List.nil_append, List.foldl_cons, tokStep_ok,
    tokStep1_inName_colon, List.foldl_append, tokRun_inLen m (rustToLowercase nm) L hL [],
    List.nil_append, List.foldl_cons, tokStep_ok]
  cases hv : v with
  | nil =>
    rw [hv] at hparse
    rw [tokStep1_inLen_gt_zero m (rustToLowercase nm) L (by simpa using hparse)]
    simp
  | cons c cs =>
    rw [tokStep1_inLen_gt_pos m (rustToLowercase nm) L v.length hparse (by rw [hv]; simp)]
    rw [← hv]
    rw [tokRun_inValue_exact m (rustToLowercase nm) v (by rw [hv]; simp) v.length [] rfl]
    simp

/-- The same, with the length numeral actually emitted by `to_adif` for an
ASCII value. -/
theorem tokRun_fieldTok (m : AList) (nm v : Str)
    (hnm : ∀ c ∈ nm, c ≠ ':' ∧ c ≠ '>')
    (hv : asciiStr v) (hbound : v.length < 2 ^ 64) :
    (fieldTok nm v).foldl tokStep (.ok (m, .scan)) =
      .ok (fmInsert m (rustToLowercase nm) v, .scan) := by
  unfold fieldTok
  apply tokRun_fieldTok_gen
  · exact hnm
  · intro c hc
    obtain ⟨d, hd, rfl⟩ := natToStr_mem _ c hc
    exact digitChar_ne_gt d hd
  · rw [byteLen_eq_length v hv]
    have hne := natToStr_ne_nil v.length
    rw [parseUsize_digits _ hne (natToStr_mem _) (by rw [charsToNat_natToStr]; omega),
      charsToNat_natToStr]

/-- A length-less tag `<nm>` (such as an end-of-record marker in any letter
case) is consumed and ignored. -/
theorem tokRun_skipTag (m : AList) (nm : Str) (hnm : ∀ c ∈ nm, c ≠ ':' ∧ c ≠ '>') :
    ('<' :: (nm ++ ['>'])).foldl tokStep (.ok (m, .scan)) = .ok (m, .scan) := by
  rw [List.foldl_cons, tokStep_ok, tokStep1_scan_lt, List.foldl_append,
    tokRun_inName m nm hnm [], List.nil_append, List.foldl_cons, tokStep_ok,
    tokStep1_inName_gt]
  rfl

/-- After an unmatched `<`, input without a closing `>` leaves the machine in a
name or length state, which the end-of-input rule turns into the fields
collected so far. -/
theorem tokRun_truncated_from_inName (m : AList) (xs : Str) :
    ∀ acc, '>' ∉ xs → ∃ st, xs.foldl tokStep (.ok (m, .inName acc)) = .ok (m, st) ∧
      tokFinish (m, st) = .ok m := by
  induction xs with
  | nil => intro acc _; exact ⟨.inName acc, by simp, rfl⟩
  | cons c cs ih =>
    intro acc h
    have hgtc : c ≠ '>' := fun hc => h (by simp [hc])
    have hgtcs : '>' ∉ cs := fun hmem => h (List.mem_cons_of_mem c hmem)
    by_cases hc : c = ':'
    · subst hc
      refine ⟨.inLen (rustToLowercase acc) cs, ?_, rfl⟩
      rw [List.foldl_cons, tokStep_ok, tokStep1_inName_colon,
        tokRun_inLen m (rustToLowercase acc) cs (fun d hd hgt => hgtcs (hgt ▸ hd)) []]
      simp
    · rw [List.foldl_cons, tokStep_ok, tokStep1_inName_other m acc c hc hgtc]
      exact ih (acc ++ [c]) hgtcs

end QrzAdif

namespace QrzAdif

/-! Lemmas about the marker splitter. -/

theorem marker_suffix_getLast_prop (l : Str) (h : eorMarker <:+ l) :
    l.getLast? = some '>' := by
  obtain ⟨t, ht⟩ := h
  have : t ++ eorMarker = (t ++ ['<', 'e', 'o', 'r']) ++ ['>'] := by
    simp [eorMarker]
  rw [← ht, this, List.getLast?_concat]

theorem marker_suffix_getLast (l : Str) (h : eorMarker.isSuffixOf l = true) :
    l.getLast? = some '>' :=
  marker_suffix_getLast_prop l ((List.isSuffixOf_iff_suffix).mp h)

theorem not_marker_suffix_snoc_prop (x : Str) (c : Char) (hc : c ≠ '>') :
    ¬eorMarker <:+ (x ++ [c]) := by
  intro hs
  have hgl := marker_suffix_getLast_prop _ hs
  rw [List.getLast?_concat] at hgl
  injection hgl with h
  exact hc h

/-- Step equation when the new character does not complete a marker. -/
theorem splitStep_not_suffix (done : List Str) (cur : Str) (c : Char)
    (h : ¬eorMarker <:+ cur ++ [c]) :
    splitStep (done, cur) c = (done, cur ++ [c]) := by
  simp only [splitStep]
  rw [if_neg (by simpa [List.isSuffixOf_iff_suffix] using h)]

/-- Step equation when the new character completes a marker. -/
theorem splitStep_suffix (done : List Str) (cur : Str) (c : Char)
    (h : eorMarker <:+ cur ++ [c]) :
    splitStep (done, cur) c =
      (done ++ [(cur ++ [c]).take ((cur ++ [c]).length - 5)], []) := by
  simp only [splitStep]
  rw [if_pos (by rw [List.isSuffixOf_iff_suffix]; exact h)]

theorem not_marker_suffix_snoc (x : Str) (c : Char) (hc : c ≠ '>') :
    eorMarker.isSuffixOf (x ++ [c]) = false := by
  cases hsf : eorMarker.isSuffixOf (x ++ [c]) with
  | false => rfl
  | true =>
    have := marker_suffix_getLast _ hsf
    rw [List.getLast?_concat] at this
    injection this with h
    exact absurd h hc

theorem marker_suffix_self (a : Str) : eorMarker.isSuffixOf (a ++ eorMarker) = true := by
  rw [List.isSuffixOf_iff_suffix]
  exact List.suffix_append a eorMarker

/-- Prepending already-closed segments: the splitter state is a homomorphism in its
first component. -/
theorem splitRun_shift (xs : Str) :
    ∀ (done : List Str) (cur : Str),
      xs.foldl splitStep (done, cur) =
        (done ++ (xs.foldl splitStep ([], cur)).1, (xs.foldl splitStep ([], cur)).2) := by
  induction xs with
  | nil => intro done cur; simp
  | cons c cs ih =>
    intro done cur
    rw [List.foldl_cons, List.foldl_cons]
    by_cases hsfx : eorMarker.isSuffixOf (cur ++ [c]) = true
    · have h1 : splitStep (done, cur) c =
          (done ++ [(cur ++ [c]).take ((cur ++ [c]).length - 5)], []) := by
        simp [splitStep, hsfx]
      have h2 : splitStep ([], cur) c =
          ([(cur ++ [c]).take ((cur ++ [c]).length - 5)], []) := by
        simp [splitStep, hsfx]
      rw [h1, h2, ih (done ++ [(cur ++ [c]).take ((cur ++ [c]).length - 5)]) [],
        ih [(cur ++ [c]).take ((cur ++ [c]).length - 5)] []]
      simp
    · have hb : eorMarker.isSuffixOf (cur ++ [c]) = false := by
        cases h : eorMarker.isSuffixOf (cur ++ [c])
        · rfl
        · exact absurd h hsfx
      have h1 : splitStep (done, cur) c = (done, cur ++ [c]) := by
        simp [splitStep, hb]
      have h2 : splitStep ([], cur) c = ([], cur ++ [c]) := by
        simp [splitStep, hb]
      rw [h1, h2, ih done (cur ++ [c])]

/-- The splitter passes over marker-free text without closing a segment. -/
theorem splitRun_no_marker (a : Str) (h : ¬eorMarker <:+: a) :
    ∀ done : List Str, a.foldl splitStep (done, []) = (done, a) := by
  induction a using List.reverseRecOn with
  | nil => intro done; rfl
  | append_singleton as c ih =>
    intro done
    have has : ¬eorMarker <:+: as :=
      fun hi => h (hi.trans (List.prefix_append as [c]).isInfix)
    have hsfx : ¬eorMarker <:+ (as ++ [c]) := fun hsf => h hsf.isInfix
    rw [List.foldl_append, ih has done]
    simp [splitStep_not_suffix done as c hsfx]

/-- Running the splitter over the marker itself closes the current segment. -/
theorem splitRun_marker (done : List Str) (a : Str) :
    eorMarker.foldl splitStep (done, a) = (done ++ [a], []) := by
  have e1 := splitStep_not_suffix done a '<' (not_marker_suffix_snoc_prop a '<' (by decide))
  have e2 := splitStep_not_suffix done (a ++ ['<']) 'e'
    (not_marker_suffix_snoc_prop (a ++ ['<']) 'e' (by decide))
  have e3 := splitStep_not_suffix done (a ++ ['<'] ++ ['e']) 'o'
    (not_marker_suffix_snoc_prop (a ++ ['<'] ++ ['e']) 'o' (by decide))
  have e4 := splitStep_not_suffix done (a ++ ['<'] ++ ['e'] ++ ['o']) 'r'
    (not_marker_suffix_snoc_prop (a ++ ['<'] ++ ['e'] ++ ['o']) 'r' (by decide))
  have hcur : (a ++ ['<'] ++ ['e'] ++ ['o'] ++ ['r']) ++ ['>'] = a ++ eorMarker := by
    simp [eorMarker]
  have e5 : splitStep (done, a ++ ['<'] ++ ['e'] ++ ['o'] ++ ['r']) '>' = (done ++ [a], []) := by
    rw [splitStep_suffix done _ '>' (by rw [hcur]; exact List.suffix_append a eorMarker), hcur]
    have hlen : (a ++ eorMarker).length - 5 = a.length := by
      simp [eorMarker]
    rw [hlen, List.take_left]
  show List.foldl splitStep (done, a) ['<', 'e', 'o', 'r', '>'] = (done ++ [a], [])
  rw [List.foldl_cons, e1, List.foldl_cons, e2, List.foldl_cons, e3, List.foldl_cons, e4,
    List.foldl_cons, e5, List.foldl_nil]

/-- The decomposition law of `split("<eor>")`: a marker-free chunk before the
first marker becomes the first partition. -/
theorem splitEor_append (a b : Str) (h : ¬eorMarker <:+: a) :
    splitEor (a ++ eorMarker ++ b) = a :: splitEor b := by
  unfold splitEor
  rw [List.foldl_append, List.foldl_append, splitRun_no_marker a h [], splitRun_marker [] a,
    splitRun_shift b ([] ++ [a]) []]
  simp

/-- Marker-free input is a single partition. -/
theorem splitEor_no_marker (a : Str) (h : ¬eorMarker <:+: a) : splitEor a = [a] := by
  unfold splitEor
  rw [splitRun_no_marker a h []]
  rfl

end QrzAdif

namespace QrzAdif

/-! Whitespace, trimming, and marker-freedom of whitespace-padded text. -/

theorem not_marker_infix_ws (w : Str) (hw : ∀ c ∈ w, rustIsWhitespace c = true) :
    ¬eorMarker <:+: w := by
  intro hi
  have hlt : '<' ∈ w := hi.subset (by simp [eorMarker])
  have := hw '<' hlt
  simp [rustIsWhitespace] at this

theorem not_marker_infix_ws_append (w r : Str)
    (hw : ∀ c ∈ w, rustIsWhitespace c = true) (hr : ¬eorMarker <:+: r) :
    ¬eorMarker <:+: (w ++ r) := by
  intro hi
  obtain ⟨s, t, hst⟩ := hi
  rw [List.append_assoc] at hst
  rcases List.append_eq_append_iff.mp hst.symm with ⟨a', _, ha2⟩ | ⟨c', hc1, hc2⟩
  · exact hr ⟨a', t, by rw [ha2]; simp⟩
  · cases c' with
    | nil =>
      simp at hc2
      exact hr ⟨[], t, by simp [hc2]⟩
    | cons c k2 =>
      have hc : c = '<' := by
        have hh := congrArg List.head? hc2
        rw [show eorMarker = '<' :: ['e', 'o', 'r', '>'] from rfl] at hh
        simpa using hh.symm
      have hcw : c ∈ w := by
        rw [hc1]
        simp
      have := hw c hcw
      rw [hc] at this
      simp [rustIsWhitespace] at this

theorem dropWhile_ws_append (w r : Str) (hw : ∀ c ∈ w, rustIsWhitespace c = true) :
    (w ++ r).dropWhile rustIsWhitespace = r.dropWhile rustIsWhitespace := by
  induction w with
  | nil => rfl
  | cons c cs ih =>
    rw [List.cons_append, List.dropWhile_cons, hw c (by simp)]
    simp only [if_true]
    exact ih (fun d hd => hw d (by simp [hd]))

theorem trim_ws_append (w r : Str) (hw : ∀ c ∈ w, rustIsWhitespace c = true) :
    trim (w ++ r) = trim r := by
  unfold trim
  rw [dropWhile_ws_append w r hw]

theorem trim_all_ws (w : Str) (hw : ∀ c ∈ w, rustIsWhitespace c = true) :
    trim w = [] := by
  have h := trim_ws_append w [] hw
  rw [List.append_nil] at h
  rw [h]
  rfl

/-- `trim r = r` forces the leading `dropWhile` to be the identity. -/
theorem dropWhile_eq_self_of_trim (r : Str) (hr : trim r = r) :
    r.dropWhile rustIsWhitespace = r := by
  have hsuf : r.dropWhile rustIsWhitespace <:+ r := List.dropWhile_suffix _
  apply hsuf.eq_of_length
  have h1 : (r.dropWhile rustIsWhitespace).length ≤ r.length := hsuf.length_le
  have h2 : (trim r).length ≤ (r.dropWhile rustIsWhitespace).length := by
    unfold trim
    rw [List.length_reverse]
    calc ((r.dropWhile rustIsWhitespace).reverse.dropWhile rustIsWhitespace).length
        ≤ (r.dropWhile rustIsWhitespace).reverse.length :=
          (List.dropWhile_suffix _).length_le
      _ = (r.dropWhile rustIsWhitespace).length := List.length_reverse _
  rw [hr] at h2
  omega

/-- Appending text whose last character is not whitespace to a trimmed
nonempty record leaves `trim` the identity. -/
theorem trim_append_keep (r x : Str) (hr : trim r = r) (hrne : r ≠ [])
    (hxne : x ≠ []) (hxl : rustIsWhitespace (x.getLast hxne) = false) :
    trim (r ++ x) = r ++ x := by
  have hdrop : r.dropWhile rustIsWhitespace = r := dropWhile_eq_self_of_trim r hr
  have hhead : ∀ (c : Char) (cs : Str), r = c :: cs → rustIsWhitespace c = false := by
    intro c cs hc
    cases hb : rustIsWhitespace c
    · rfl
    · rw [hc, List.dropWhile_cons, hb] at hdrop
      simp only [if_true] at hdrop
      have h1 : (cs.dropWhile rustIsWhitespace).length ≤ cs.length :=
        (List.dropWhile_suffix _).length_le
      have h2 := congrArg List.length hdrop
      simp at h2
      omega
  have hlead : (r ++ x).dropWhile rustIsWhitespace = r ++ x := by
    cases hrc : r with
    | nil => exact absurd hrc hrne
    | cons c cs =>
      rw [List.cons_append, List.dropWhile_cons, hhead c cs hrc]
      simp
  unfold trim
  rw [hlead]
  have hxrev : x.reverse = x.getLast hxne :: x.dropLast.reverse := by
    conv_lhs => rw [← List.dropLast_concat_getLast hxne]
    simp
  rw [List.reverse_append, hxrev, List.cons_append, List.dropWhile_cons, hxl]
  simp only [Bool.false_eq_true, if_false]
  rw [← List.cons_append, ← hxrev, ← List.reverse_append, List.reverse_reverse]

end QrzAdif

namespace QrzAdif

/-! Association-list (HashMap model) lemmas. -/

theorem fmLookup_nil (k : Str) : fmLookup [] k = none := rfl

theorem fmLookup_cons_self (k v : Str) (m : AList) :
    fmLookup ((k, v) :: m) k = some v := by
  simp [fmLookup]

theorem fmLookup_cons_ne (k v k' : Str) (m : AList) (h : k ≠ k') :
    fmLookup ((k, v) :: m) k' = fmLookup m k' := by
  simp [fmLookup, List.find?_cons, h]

theorem fmErase_nil (k : Str) : fmErase [] k = [] := rfl

theorem fmErase_cons_self (k v : Str) (m : AList) :
    fmErase ((k, v) :: m) k = fmErase m k := by
  simp [fmErase]

theorem fmErase_cons_ne (k v k' : Str) (m : AList) (h : k ≠ k') :
    fmErase ((k, v) :: m) k' = (k, v) :: fmErase m k' := by
  simp [fmErase, List.filter_cons, h]

theorem fmLookup_append (m₁ m₂ : AList) (k : Str) :
    fmLookup (m₁ ++ m₂) k = (fmLookup m₁ k).or (fmLookup m₂ k) := by
  unfold fmLookup
  rw [List.find?_append]
  cases List.find? (fun p => p.1 == k) m₁ <;> simp

theorem fmErase_append (m₁ m₂ : AList) (k : Str) :
    fmErase (m₁ ++ m₂) k = fmErase m₁ k ++ fmErase m₂ k := by
  unfold fmErase
  rw [List.filter_append]

theorem fmLookup_not_mem (m : AList) (k : Str) (h : k ∉ m.map Prod.fst) :
    fmLookup m k = none := by
  induction m with
  | nil => rfl
  | cons p rest ih =>
    have h1 : p.1 ≠ k := by
      intro hc
      exact h (by simp [← hc])
    rw [show p = (p.1, p.2) from rfl, fmLookup_cons_ne _ _ _ _ h1]
    exact ih (fun hc => h (by simp at hc ⊢; exact Or.inr hc))

theorem fmErase_not_mem (m : AList) (k : Str) (h : k ∉ m.map Prod.fst) :
    fmErase m k = m := by
  induction m with
  | nil => rfl
  | cons p rest ih =>
    have h1 : p.1 ≠ k := by
      intro hc
      exact h (by simp [← hc])
    rw [show p = (p.1, p.2) from rfl, fmErase_cons_ne _ _ _ _ h1]
    rw [ih (fun hc => h (by simp at hc ⊢; exact Or.inr hc))]

theorem fmInsert_not_mem (m : AList) (k v : Str) (h : k ∉ m.map Prod.fst) :
    fmInsert m k v = m ++ [(k, v)] := by
  unfold fmInsert
  rw [fmErase_not_mem m k h]

/-- The map entry contributed by one optional field. -/
def optPair (nm : Str) : Option Str → AList
  | some v => [(nm, v)]
  | none => []

theorem optPair_keys (nm : Str) (o : Option Str) :
    ∀ k ∈ (optPair nm o).map Prod.fst, k = nm := by
  cases o <;> simp [optPair]

theorem fmLookup_optPair_ne (nm : Str) (o : Option Str) (m : AList) (k : Str)
    (h : nm ≠ k) : fmLookup (optPair nm o ++ m) k = fmLookup m k := by
  cases o with
  | none => rfl
  | some v =>
    show fmLookup ((nm, v) :: m) k = fmLookup m k
    exact fmLookup_cons_ne _ _ _ _ h

theorem fmErase_optPair_ne (nm : Str) (o : Option Str) (m : AList) (k : Str)
    (h : nm ≠ k) : fmErase (optPair nm o ++ m) k = optPair nm o ++ fmErase m k := by
  cases o with
  | none => rfl
  | some v =>
    show fmErase ((nm, v) :: m) k = (nm, v) :: fmErase m k
    exact fmErase_cons_ne _ _ _ _ h

theorem fmLookup_optPair_self (nm : Str) (o : Option Str) (m : AList)
    (hm : nm ∉ m.map Prod.fst) :
    fmLookup (optPair nm o ++ m) nm = o := by
  cases o with
  | none => exact fmLookup_not_mem m nm hm
  | some v => exact fmLookup_cons_self _ _ _

theorem fmErase_optPair_self (nm : Str) (o : Option Str) (m : AList)
    (hm : nm ∉ m.map Prod.fst) :
    fmErase (optPair nm o ++ m) nm = m := by
  cases o with
  | none => exact fmErase_not_mem m nm hm
  | some v =>
    show fmErase ((nm, v) :: m) nm = m
    rw [fmErase_cons_self, fmErase_not_mem m nm hm]

/-! Unfold lemmas for the record loop of `parse_adif`. -/

theorem parse_adif_list_nil : parse_adif_list [] = .ok [] := rfl

theorem parse_adif_list_cons_empty (r : Str) (rs : List Str) (h : trim r = []) :
    parse_adif_list (r :: rs) = parse_adif_list rs := by
  simp [parse_adif_list, h]

theorem parse_adif_list_cons_ok (r : Str) (rs : List Str) (q : QsoRecord)
    (h : trim r ≠ []) (hp : parse_single_record (trim r) = .ok q) :
    parse_adif_list (r :: rs) = (parse_adif_list rs).map (fun qs => q :: qs) := by
  simp [parse_adif_list, h, hp]

end QrzAdif

namespace QrzAdif

/-! Tokenizing an emitted body recovers the emitted pairs. -/

/-- Concatenated emission of a list of name/value pairs. -/
def emitTokens (ps : AList) : Str := ps.foldr (fun p acc => fieldTok p.1 p.2 ++ acc) []

theorem emitTokens_nil : emitTokens [] = [] := rfl

theorem emitTokens_cons (p : Str × Str) (ps : AList) :
    emitTokens (p :: ps) = fieldTok p.1 p.2 ++ emitTokens ps := rfl

theorem emitTokens_append (a b : AList) :
    emitTokens (a ++ b) = emitTokens a ++ emitTokens b := by
  induction a with
  | nil => rfl
  | cons p ps ih => rw [List.cons_append, emitTokens_cons, emitTokens_cons, ih, List.append_assoc]

/-- Emission of one optional field is the emission of its map entry. -/
theorem optTok_eq_emit (nm : Str) (o : Option Str) :
    optTok nm o = emitTokens (optPair nm o) := by
  cases o with
  | none => rfl
  | some v =>
    show fieldTok nm v = fieldTok nm v ++ []
    rw [List.append_nil]

/-- Tokenizing the emission of pairwise-distinct, well-formed pairs extends the
current map by exactly those pairs. -/
theorem tokRun_pairs (ps : AList) :
    ∀ m : AList,
      (∀ p ∈ ps, (∀ c ∈ p.1, c ≠ ':' ∧ c ≠ '>') ∧ rustToLowercase p.1 = p.1 ∧
        asciiStr p.2 ∧ p.2.length < 2 ^ 64) →
      (∀ p ∈ ps, p.1 ∉ m.map Prod.fst) →
      List.Pairwise (fun a b : Str × Str => a.1 ≠ b.1) ps →
      (emitTokens ps).foldl tokStep (.ok (m, .scan)) = .ok (m ++ ps, .scan) := by
  induction ps with
  | nil => intro m _ _ _; simp [emitTokens]
  | cons p rest ih =>
    intro m hgood hdisj hpw
    obtain ⟨hnm, hlow, hval, hbnd⟩ := hgood p (by simp)
    rw [emitTokens_cons, List.foldl_append, tokRun_fieldTok m p.1 p.2 hnm hval hbnd, hlow,
      fmInsert_not_mem m p.1 p.2 (hdisj p (by simp))]
    rw [ih (m ++ [(p.1, p.2)])
      (fun p2 h2 => hgood p2 (by simp [h2]))
      (fun p2 h2 => by
        intro hc
        rw [List.map_append] at hc
        rcases List.mem_append.mp hc with hc | hc
        · exact hdisj p2 (by simp [h2]) hc
        · have hne := (List.pairwise_cons.mp hpw).1 p2 h2
          simp at hc
          exact hne hc.symm)
      (List.pairwise_cons.mp hpw).2]
    simp

/-- The named-field entries emitted by `to_adif`, in emission order. -/
def namedPairs (q : QsoRecord) : AList :=
  [("call".data, q.call), ("station_callsign".data, q.station_callsign),
   ("qso_date".data, formatDate q.qso_date), ("time_on".data, format_time q.time_on),
   ("band".data, q.band), ("mode".data, q.mode)]

/-- The optional-field entries emitted by `to_adif`, in emission order. -/
def optPairsOf (q : QsoRecord) : AList :=
  optPair "time_off".data (q.time_off.map format_time) ++ optPair "freq".data q.freq ++
  optPair "rst_sent".data q.rst_sent ++ optPair "rst_rcvd".data q.rst_rcvd ++
  optPair "qth".data q.qth ++ optPair "name".data q.name ++ optPair "comment".data q.comment

/-- All entries emitted by `to_adif`. -/
def emitPairs (q : QsoRecord) : AList :=
  namedPairs q ++ optPairsOf q ++ q.additional_fields

/-- The hard-coded `<qso_date:8>` tag agrees with the generic field token once
the formatted date is 8 bytes long. -/
theorem qsoDateTok_eq (d : NDate) (h : byteLen (formatDate d) = 8) :
    "<qso_date:8>".data ++ formatDate d = fieldTok "qso_date".data (formatDate d) := by
  unfold fieldTok
  rw [h]
  rfl

theorem addl_emit_eq (ps : AList) (h : ∀ p ∈ ps, rustToLowercase p.1 = p.1) :
    ps.foldr (fun p acc => fieldTok (rustToLowercase p.1) p.2 ++ acc) [] = emitTokens ps := by
  induction ps with
  | nil => rfl
  | cons p rest ih =>
    rw [List.foldr_cons, h p (by simp), emitTokens_cons,
      ih (fun p2 h2 => h p2 (by simp [h2]))]

/-- Under the emission hypotheses, the body of `to_adif` is exactly the
emission of `emitPairs`. -/
theorem adifBody_eq_emit (q : QsoRecord) (hdate : byteLen (formatDate q.qso_date) = 8)
    (haddl : ∀ p ∈ q.additional_fields, rustToLowercase p.1 = p.1) :
    adifBody q = emitTokens (emitPairs q) := by
  unfold adifBody emitPairs namedPairs optPairsOf
  rw [qsoDateTok_eq _ hdate, addl_emit_eq _ haddl]
  simp only [emitTokens_append, emitTokens_cons, emitTokens_nil, optTok_eq_emit]
  simp [List.append_assoc]

end QrzAdif

namespace QrzAdif

/-! Key sets of the emitted fields. -/

/-- The six mandatory field names. -/
def mandNames : List Str :=
  ["call".data, "station_callsign".data, "qso_date".data, "time_on".data,
   "band".data, "mode".data]

/-- The seven optional field names, in emission order. -/
def optNames : List Str :=
  ["time_off".data, "freq".data, "rst_sent".data, "rst_rcvd".data, "qth".data,
   "name".data, "comment".data]

/-- Every field name `fields_to_qso` consumes; `additional_fields` keys must
avoid these for a faithful round trip. -/
def reservedNames : List Str := mandNames ++ optNames

theorem optPair_mem (nm : Str) (o : Option Str) (p : Str × Str) (h : p ∈ optPair nm o) :
    p.1 = nm ∧ o = some p.2 := by
  cases o with
  | none => simp [optPair] at h
  | some v =>
    simp [optPair] at h
    simp [h]

theorem namedPairs_key_mem (q : QsoRecord) (p : Str × Str) (h : p ∈ namedPairs q) :
    p.1 ∈ mandNames := by
  simp [namedPairs] at h
  rcases h with h | h | h | h | h | h <;> simp [h, mandNames]

theorem optPairsOf_key_mem (q : QsoRecord) (p : Str × Str) (h : p ∈ optPairsOf q) :
    p.1 ∈ optNames := by
  unfold optPairsOf at h
  simp only [List.append_assoc, List.mem_append] at h
  rcases h with h | h | h | h | h | h | h <;>
    simp [(optPair_mem _ _ _ h).1, optNames]

theorem optPair_keys_sublist (nm : Str) (o : Option Str) :
    List.Sublist ((optPair nm o).map Prod.fst) [nm] := by
  cases o with
  | none => exact List.nil_sublist _
  | some v => exact List.Sublist.refl _

theorem optPairsOf_keys_sublist (q : QsoRecord) :
    List.Sublist ((optPairsOf q).map Prod.fst) optNames := by
  unfold optPairsOf
  simp only [List.map_append]
  exact ((((((optPair_keys_sublist _ _).append (optPair_keys_sublist _ _)).append
    (optPair_keys_sublist _ _)).append (optPair_keys_sublist _ _)).append
    (optPair_keys_sublist _ _)).append (optPair_keys_sublist _ _)).append
    (optPair_keys_sublist _ _)

theorem namedPairs_keys (q : QsoRecord) : (namedPairs q).map Prod.fst = mandNames := rfl

/-- Keys of the whole emitted map are nodup: the emitted key sequence is a
sublist of `reservedNames ++ additional keys`, which is nodup. -/
theorem nodup_emitPairs_keys (q : QsoRecord)
    (haddl_res : ∀ p ∈ q.additional_fields, p.1 ∉ reservedNames)
    (haddl_nd : (q.additional_fields.map Prod.fst).Nodup) :
    ((emitPairs q).map Prod.fst).Nodup := by
  have hsub : List.Sublist ((emitPairs q).map Prod.fst)
      (reservedNames ++ q.additional_fields.map Prod.fst) := by
    unfold emitPairs reservedNames
    simp only [List.map_append, List.append_assoc, namedPairs_keys]
    exact (List.Sublist.refl mandNames).append
      ((optPairsOf_keys_sublist q).append (List.Sublist.refl _))
  apply List.Nodup.sublist hsub
  rw [List.nodup_append]
  refine ⟨by decide, haddl_nd, ?_⟩
  intro a ha hb
  obtain ⟨p, hp, hpa⟩ := List.mem_map.mp hb
  exact haddl_res p hp (hpa ▸ ha)

theorem pairwise_emitPairs (q : QsoRecord)
    (haddl_res : ∀ p ∈ q.additional_fields, p.1 ∉ reservedNames)
    (haddl_nd : (q.additional_fields.map Prod.fst).Nodup) :
    List.Pairwise (fun a b : Str × Str => a.1 ≠ b.1) (emitPairs q) := by
  have h := nodup_emitPairs_keys q haddl_res haddl_nd
  rw [List.Nodup, List.pairwise_map] at h
  exact h

end QrzAdif

namespace QrzAdif

/-- The round-trippable records: documented fields only, ASCII values, valid
date in a 4-digit year, whole-minute-representable times (seconds 0, since
`to_adif` emits `%H%M`), `additional_fields` keys ASCII lowercase (ASCII so
that `rustToLowercase` coincides with the source's Unicode lowercasing on
them), tag-safe (no `:`/`>`), unique, and not colliding with the named
fields, values short enough for `usize`, no embedded `<eor>` in the encoded
body, and no value placed so that trimming the record body would change
it. -/
structure GoodRecord (q : QsoRecord) : Prop where
  call_ascii : asciiStr q.call
  call_len : q.call.length < 2 ^ 64
  sc_ascii : asciiStr q.station_callsign
  sc_len : q.station_callsign.length < 2 ^ 64
  band_ascii : asciiStr q.band
  band_len : q.band.length < 2 ^ 64
  mode_ascii : asciiStr q.mode
  mode_len : q.mode.length < 2 ^ 64
  year_lb : 0 ≤ q.qso_date.year
  year_ub : q.qso_date.year ≤ 9999
  month_lb : 1 ≤ q.qso_date.month
  month_ub : q.qso_date.month ≤ 12
  day_lb : 1 ≤ q.qso_date.day
  day_ub : q.qso_date.day ≤ daysInMonth q.qso_date.year q.qso_date.month
  ton_h : q.time_on.hour ≤ 23
  ton_m : q.time_on.minute ≤ 59
  ton_s : q.time_on.second = 0
  toff_ok : ∀ t ∈ q.time_off, t.hour ≤ 23 ∧ t.minute ≤ 59 ∧ t.second = 0
  freq_ok : ∀ s ∈ q.freq, asciiStr s ∧ s.length < 2 ^ 64 ∧ isValidF64 s = true
  rst_sent_ok : ∀ s ∈ q.rst_sent, asciiStr s ∧ s.length < 2 ^ 64
  rst_rcvd_ok : ∀ s ∈ q.rst_rcvd, asciiStr s ∧ s.length < 2 ^ 64
  qth_ok : ∀ s ∈ q.qth, asciiStr s ∧ s.length < 2 ^ 64
  name_ok : ∀ s ∈ q.name, asciiStr s ∧ s.length < 2 ^ 64
  comment_ok : ∀ s ∈ q.comment, asciiStr s ∧ s.length < 2 ^ 64
  addl_ok : ∀ p ∈ q.additional_fields, rustToLowercase p.1 = p.1 ∧
    (∀ c ∈ p.1, c ≠ ':' ∧ c ≠ '>') ∧ asciiStr p.2 ∧ p.2.length < 2 ^ 64 ∧ asciiStr p.1
  addl_res : ∀ p ∈ q.additional_fields, p.1 ∉ reservedNames
  addl_nd : (q.additional_fields.map Prod.fst).Nodup
  no_eor : ¬eorMarker <:+: adifBody q
  trim_id : trim (adifBody q) = adifBody q

theorem formatDate_bytes (q : QsoRecord) (h : GoodRecord q) :
    byteLen (formatDate q.qso_date) = 8 := by
  rw [byteLen_eq_length _ (formatDate_ascii _ h.year_lb)]
  exact formatDate_length _ h.year_lb h.year_ub (by have := h.month_ub; omega)
    (by have := h.day_ub; have := daysInMonth_le q.qso_date.year q.qso_date.month; omega)

theorem emitPairs_good (q : QsoRecord) (h : GoodRecord q) :
    ∀ p ∈ emitPairs q, (∀ c ∈ p.1, c ≠ ':' ∧ c ≠ '>') ∧ rustToLowercase p.1 = p.1 ∧
      asciiStr p.2 ∧ p.2.length < 2 ^ 64 := by
  intro p hp
  unfold emitPairs at hp
  simp only [List.append_assoc, List.mem_append] at hp
  rcases hp with hp | hp | hp
  · simp only [namedPairs, List.mem_cons, List.not_mem_nil, or_false] at hp
    rcases hp with hp | hp | hp | hp | hp | hp
    · rw [hp]; dsimp only; exact ⟨by decide, by decide, h.call_ascii, h.call_len⟩
    · rw [hp]; dsimp only; exact ⟨by decide, by decide, h.sc_ascii, h.sc_len⟩
    · rw [hp]
      dsimp only
      refine ⟨by decide, by decide, formatDate_ascii _ h.year_lb, ?_⟩
      have := formatDate_length q.qso_date h.year_lb h.year_ub
        (by have := h.month_ub; omega)
        (by have := h.day_ub; have := daysInMonth_le q.qso_date.year q.qso_date.month; omega)
      simp only [this]
      norm_num
    · rw [hp]
      dsimp only
      refine ⟨by decide, by decide, format_time_ascii _, ?_⟩
      have := format_time_length q.time_on (by have := h.ton_h; omega)
        (by have := h.ton_m; omega)
      simp only [this]
      norm_num
    · rw [hp]; dsimp only; exact ⟨by decide, by decide, h.band_ascii, h.band_len⟩
    · rw [hp]; dsimp only; exact ⟨by decide, by decide, h.mode_ascii, h.mode_len⟩
  · unfold optPairsOf at hp
    simp only [List.append_assoc, List.mem_append] at hp
    rcases hp with hp | hp | hp | hp | hp | hp | hp
    · obtain ⟨hk, ho⟩ := optPair_mem _ _ _ hp
      obtain ⟨t, ht, hv⟩ := Option.map_eq_some'.mp ho
      obtain ⟨h1, h2, _⟩ := h.toff_ok t ht
      refine ⟨by rw [hk]; decide, by rw [hk]; decide, by rw [← hv]; exact format_time_ascii t, ?_⟩
      rw [← hv]
      have := format_time_length t (by omega) (by omega)
      simp only [this]
      norm_num
    · obtain ⟨hk, ho⟩ := optPair_mem _ _ _ hp
      obtain ⟨ha, hl, _⟩ := h.freq_ok p.2 ho
      exact ⟨by rw [hk]; decide, by rw [hk]; decide, ha, hl⟩
    · obtain ⟨hk, ho⟩ := optPair_mem _ _ _ hp
      obtain ⟨ha, hl⟩ := h.rst_sent_ok p.2 ho
      exact ⟨by rw [hk]; decide, by rw [hk]; decide, ha, hl⟩
    · obtain ⟨hk, ho⟩ := optPair_mem _ _ _ hp
      obtain ⟨ha, hl⟩ := h.rst_rcvd_ok p.2 ho
      exact ⟨by rw [hk]; decide, by rw [hk]; decide, ha, hl⟩
    · obtain ⟨hk, ho⟩ := optPair_mem _ _ _ hp
      obtain ⟨ha, hl⟩ := h.qth_ok p.2 ho
      exact ⟨by rw [hk]; decide, by rw [hk]; decide, ha, hl⟩
    · obtain ⟨hk, ho⟩ := optPair_mem _ _ _ hp
      obtain ⟨ha, hl⟩ := h.name_ok p.2 ho
      exact ⟨by rw [hk]; decide, by rw [hk]; decide, ha, hl⟩
    · obtain ⟨hk, ho⟩ := optPair_mem _ _ _ hp
      obtain ⟨ha, hl⟩ := h.comment_ok p.2 ho
      exact ⟨by rw [hk]; decide, by rw [hk]; decide, ha, hl⟩
  · obtain ⟨h1, h2, h3, h4, -⟩ := h.addl_ok p hp
    exact ⟨h2, h1, h3, h4⟩

/-- Tokenizing the encoded body yields exactly the emitted map. -/
theorem tokenizeRecord_adifBody (q : QsoRecord) (h : GoodRecord q) :
    tokenizeRecord (adifBody q) = .ok (emitPairs q) := by
  unfold tokenizeRecord tokRun
  rw [adifBody_eq_emit q (formatDate_bytes q h) (fun p hp => (h.addl_ok p hp).1),
    tokRun_pairs (emitPairs q) [] (emitPairs_good q h) (by simp)
      (pairwise_emitPairs q h.addl_res h.addl_nd)]
  rfl

end QrzAdif

namespace QrzAdif

theorem ROut.ok_bind {α β : Type} (a : α) (f : α → ROut β) : (ROut.ok a).bind f = f a := rfl

theorem parse_time_format_time_eta (t : NTime) (hh : t.hour ≤ 23) (hm : t.minute ≤ 59)
    (hs : t.second = 0) : parse_time (format_time t) = .ok t := by
  rw [parse_time_format_time t hh hm]
  cases t with
  | mk a b c =>
    simp only at hs
    rw [hs]

theorem parseTimeOff_map (o : Option NTime)
    (h : ∀ t, o = some t → t.hour ≤ 23 ∧ t.minute ≤ 59 ∧ t.second = 0) :
    parseTimeOff (o.map format_time) = .ok o := by
  cases o with
  | none => rfl
  | some t =>
    obtain ⟨h1, h2, h3⟩ := h t rfl
    show (parse_time (format_time t)).map some = .ok (some t)
    rw [parse_time_format_time_eta t h1 h2 h3]
    rfl

theorem parseFreqOpt_eq (o : Option Str) (h : ∀ s, o = some s → isValidF64 s = true) :
    parseFreqOpt o = .ok o := by
  cases o with
  | none => rfl
  | some s => simp [parseFreqOpt, h s rfl]

theorem key_notin_optPair (k nm : Str) (o : Option Str) (h : k ≠ nm) :
    k ∉ (optPair nm o).map Prod.fst := by
  intro hc
  obtain ⟨p, hp, hpk⟩ := List.mem_map.mp hc
  exact h (by rw [← hpk, (optPair_mem nm o p hp).1])

theorem key_notin_append (k : Str) (a b : AList) (ha : k ∉ a.map Prod.fst)
    (hb : k ∉ b.map Prod.fst) : k ∉ (a ++ b).map Prod.fst := by
  intro hc
  rw [List.map_append] at hc
  rcases List.mem_append.mp hc with hc | hc
  · exact ha hc
  · exact hb hc

theorem key_notin_addl (q : QsoRecord) (k : Str) (hk : k ∈ reservedNames)
    (haddl : ∀ p ∈ q.additional_fields, p.1 ∉ reservedNames) :
    k ∉ q.additional_fields.map Prod.fst := by
  intro hc
  obtain ⟨p, hp, hpk⟩ := List.mem_map.mp hc
  exact haddl p hp (by rw [hpk]; exact hk)

/-- Assembling the emitted field map reproduces the original record. -/
theorem fields_to_qso_emitPairs (q : QsoRecord) (h : GoodRecord q) :
    fields_to_qso (emitPairs q) = .ok q := by
  have hshape : emitPairs q =
      ("call".data, q.call) :: ("station_callsign".data, q.station_callsign) ::
      ("qso_date".data, formatDate q.qso_date) :: ("time_on".data, format_time q.time_on) ::
      ("band".data, q.band) :: ("mode".data, q.mode) ::
      (optPairsOf q ++ q.additional_fields) := by
    simp [emitPairs, namedPairs]
  have htail : ∀ kn ∈ mandNames, kn ∉ (optPairsOf q ++ q.additional_fields).map Prod.fst := by
    intro kn hkn
    apply key_notin_append
    · intro hc
      obtain ⟨p, hp, hpk⟩ := List.mem_map.mp hc
      have hopt := optPairsOf_key_mem q p hp
      rw [hpk] at hopt
      exact (by decide : ∀ a ∈ mandNames, a ∉ optNames) kn hkn hopt
    · exact key_notin_addl q kn (by unfold reservedNames; exact List.mem_append.mpr (Or.inl hkn))
        h.addl_res
  have htc := htail "call".data (by decide)
  have hts := htail "station_callsign".data (by decide)
  have htq := htail "qso_date".data (by decide)
  have htt := htail "time_on".data (by decide)
  have htb := htail "band".data (by decide)
  have htm := htail "mode".data (by decide)
  have e1 : reqField (emitPairs q) "call".data "Missing call field".data =
      .ok (q.call,
        ("station_callsign".data, q.station_callsign) ::
        ("qso_date".data, formatDate q.qso_date) :: ("time_on".data, format_time q.time_on) ::
        ("band".data, q.band) :: ("mode".data, q.mode) ::
        (optPairsOf q ++ q.additional_fields)) := by
    unfold reqField
    rw [hshape, fmLookup_cons_self, fmErase_cons_self, fmErase_cons_ne _ _ _ _ (by decide),
      fmErase_cons_ne _ _ _ _ (by decide), fmErase_cons_ne _ _ _ _ (by decide),
      fmErase_cons_ne _ _ _ _ (by decide), fmErase_cons_ne _ _ _ _ (by decide),
      fmErase_not_mem _ _ htc]
  have e2 : reqField
      (("station_callsign".data, q.station_callsign) ::
        ("qso_date".data, formatDate q.qso_date) :: ("time_on".data, format_time q.time_on) ::
        ("band".data, q.band) :: ("mode".data, q.mode) ::
        (optPairsOf q ++ q.additional_fields))
      "station_callsign".data "Missing station_callsign field".data =
      .ok (q.station_callsign,
        ("qso_date".data, formatDate q.qso_date) :: ("time_on".data, format_time q.time_on) ::
        ("band".data, q.band) :: ("mode".data, q.mode) ::
        (optPairsOf q ++ q.additional_fields)) := by
    unfold reqField
    rw [fmLookup_cons_self, fmErase_cons_self, fmErase_cons_ne _ _ _ _ (by decide),
      fmErase_cons_ne _ _ _ _ (by decide), fmErase_cons_ne _ _ _ _ (by decide),
      fmErase_cons_ne _ _ _ _ (by decide), fmErase_not_mem _ _ hts]
  have e3 : reqField
      (("qso_date".data, formatDate q.qso_date) :: ("time_on".data, format_time q.time_on) ::
        ("band".data, q.band) :: ("mode".data, q.mode) ::
        (optPairsOf q ++ q.additional_fields))
      "band".data "Missing band field".data =
      .ok (q.band,
        ("qso_date".data, formatDate q.qso_date) :: ("time_on".data, format_time q.time_on) ::
        ("mode".data, q.mode) :: (optPairsOf q ++ q.additional_fields)) := by
    unfold reqField
    rw [fmLookup_cons_ne _ _ _ _ (by decide), fmLookup_cons_ne _ _ _ _ (by decide),
      fmLookup_cons_self, fmErase_cons_ne _ _ _ _ (by decide),
      fmErase_cons_ne _ _ _ _ (by decide), fmErase_cons_self,
      fmErase_cons_ne _ _ _ _ (by decide), fmErase_not_mem _ _ htb]
  have e4 : reqField
      (("qso_date".data, formatDate q.qso_date) :: ("time_on".data, format_time q.time_on) ::
        ("mode".data, q.mode) :: (optPairsOf q ++ q.additional_fields))
      "mode".data "Missing mode field".data =
      .ok (q.mode,
        ("qso_date".data, formatDate q.qso_date) :: ("time_on".data, format_time q.time_on) ::
        (optPairsOf q ++ q.additional_fields)) := by
    unfold reqField
    rw [fmLookup_cons_ne _ _ _ _ (by decide), fmLookup_cons_ne _ _ _ _ (by decide),
      fmLookup_cons_self, fmErase_cons_ne _ _ _ _ (by decide),
      fmErase_cons_ne _ _ _ _ (by decide), fmErase_cons_self, fmErase_not_mem _ _ htm]
  have e5 : reqField
      (("qso_date".data, formatDate q.qso_date) :: ("time_on".data, format_time q.time_on) ::
        (optPairsOf q ++ q.additional_fields))
      "qso_date".data "Missing qso_date field".data =
      .ok (formatDate q.qso_date,
        ("time_on".data, format_time q.time_on) :: (optPairsOf q ++ q.additional_fields)) := by
    unfold reqField
    rw [fmLookup_cons_self, fmErase_cons_self, fmErase_cons_ne _ _ _ _ (by decide),
      fmErase_not_mem _ _ htq]
  have e6 : reqField
      (("time_on".data, format_time q.time_on) :: (optPairsOf q ++ q.additional_fields))
      "time_on".data "Missing time_on field".data =
      .ok (format_time q.time_on, optPairsOf q ++ q.additional_fields) := by
    unfold reqField
    rw [fmLookup_cons_self, fmErase_cons_self, fmErase_not_mem _ _ htt]
  have n7 : "comment".data ∉ q.additional_fields.map Prod.fst :=
    key_notin_addl q _ (by decide) h.addl_res
  have n6 : "name".data ∉
      (optPair "comment".data q.comment ++ q.additional_fields).map Prod.fst :=
    key_notin_append _ _ _ (key_notin_optPair _ _ _ (by decide))
      (key_notin_addl q _ (by decide) h.addl_res)
  have n5 : "qth".data ∉
      (optPair "name".data q.name ++
        (optPair "comment".data q.comment ++ q.additional_fields)).map Prod.fst :=
    key_notin_append _ _ _ (key_notin_optPair _ _ _ (by decide))
      (key_notin_append _ _ _ (key_notin_optPair _ _ _ (by decide))
        (key_notin_addl q _ (by decide) h.addl_res))
  have n4 : "rst_rcvd".data ∉
      (optPair "qth".data q.qth ++ (optPair "name".data q.name ++
        (optPair "comment".data q.comment ++ q.additional_fields))).map Prod.fst :=
    key_notin_append _ _ _ (key_notin_optPair _ _ _ (by decide))
      (key_notin_append _ _ _ (key_notin_optPair _ _ _ (by decide))
        (key_notin_append _ _ _ (key_notin_optPair _ _ _ (by decide))
          (key_notin_addl q _ (by decide) h.addl_res)))
  have n3 : "rst_sent".data ∉
      (optPair "rst_rcvd".data q.rst_rcvd ++ (optPair "qth".data q.qth ++
        (optPair "name".data q.name ++
          (optPair "comment".data q.comment ++ q.additional_fields)))).map Prod.fst :=
    key_notin_append _ _ _ (key_notin_optPair _ _ _ (by decide))
      (key_notin_append _ _ _ (key_notin_optPair _ _ _ (by decide))
        (key_notin_append _ _ _ (key_notin_optPair _ _ _ (by decide))
          (key_notin_append _ _ _ (key_notin_optPair _ _ _ (by decide))
            (key_notin_addl q _ (by decide) h.addl_res))))
  have n2 : "freq".data ∉
      (optPair "rst_sent".data q.rst_sent ++ (optPair "rst_rcvd".data q.rst_rcvd ++
        (optPair "qth".data q.qth ++ (optPair "name".data q.name ++
          (optPair "comment".data q.comment ++ q.additional_fields))))).map Prod.fst :=
    key_notin_append _ _ _ (key_notin_optPair _ _ _ (by decide))
      (key_notin_append _ _ _ (key_notin_optPair _ _ _ (by decide))
        (key_notin_append _ _ _ (key_notin_optPair _ _ _ (by decide))
          (key_notin_append _ _ _ (key_notin_optPair _ _ _ (by decide))
            (key_notin_append _ _ _ (key_notin_optPair _ _ _ (by decide))
              (key_notin_addl q _ (by decide) h.addl_res)))))
  have n1 : "time_off".data ∉
      (optPair "freq".data q.freq ++ (optPair "rst_sent".data q.rst_sent ++
        (optPair "rst_rcvd".data q.rst_rcvd ++ (optPair "qth".data q.qth ++
          (optPair "name".data q.name ++
            (optPair "comment".data q.comment ++ q.additional_fields)))))).map Prod.fst :=
    key_notin_append _ _ _ (key_notin_optPair _ _ _ (by decide))
      (key_notin_append _ _ _ (key_notin_optPair _ _ _ (by decide))
        (key_notin_append _ _ _ (key_notin_optPair _ _ _ (by decide))
          (key_notin_append _ _ _ (key_notin_optPair _ _ _ (by decide))
            (key_notin_append _ _ _ (key_notin_optPair _ _ _ (by decide))
              (key_notin_append _ _ _ (key_notin_optPair _ _ _ (by decide))
                (key_notin_addl q _ (by decide) h.addl_res))))))
  have hTsh : optPairsOf q ++ q.additional_fields =
      optPair "time_off".data (q.time_off.map format_time) ++
        (optPair "freq".data q.freq ++ (optPair "rst_sent".data q.rst_sent ++
          (optPair "rst_rcvd".data q.rst_rcvd ++ (optPair "qth".data q.qth ++
            (optPair "name".data q.name ++
              (optPair "comment".data q.comment ++ q.additional_fields)))))) := by
    unfold optPairsOf
    simp [List.append_assoc]
  have o1 : optField (optPairsOf q ++ q.additional_fields) "time_off".data =
      (q.time_off.map format_time,
        optPair "freq".data q.freq ++ (optPair "rst_sent".data q.rst_sent ++
          (optPair "rst_rcvd".data q.rst_rcvd ++ (optPair "qth".data q.qth ++
            (optPair "name".data q.name ++
              (optPair "comment".data q.comment ++ q.additional_fields)))))) := by
    unfold optField
    rw [hTsh, fmLookup_optPair_self _ _ _ n1, fmErase_optPair_self _ _ _ n1]
  have o2 : optField
      (optPair "freq".data q.freq ++ (optPair "rst_sent".data q.rst_sent ++
        (optPair "rst_rcvd".data q.rst_rcvd ++ (optPair "qth".data q.qth ++
          (optPair "name".data q.name ++
            (optPair "comment".data q.comment ++ q.additional_fields)))))) "freq".data =
      (q.freq,
        optPair "rst_sent".data q.rst_sent ++ (optPair "rst_rcvd".data q.rst_rcvd ++
          (optPair "qth".data q.qth ++ (optPair "name".data q.name ++
            (optPair "comment".data q.comment ++ q.additional_fields))))) := by
    unfold optField
    rw [fmLookup_optPair_self _ _ _ n2, fmErase_optPair_self _ _ _ n2]
  have o3 : optField
      (optPair "rst_sent".data q.rst_sent ++ (optPair "rst_rcvd".data q.rst_rcvd ++
        (optPair "qth".data q.qth ++ (optPair "name".data q.name ++
          (optPair "comment".data q.comment ++ q.additional_fields))))) "rst_sent".data =
      (q.rst_sent,
        optPair "rst_rcvd".data q.rst_rcvd ++ (optPair "qth".data q.qth ++
          (optPair "name".data q.name ++
            (optPair "comment".data q.comment ++ q.additional_fields)))) := by
    unfold optField
    rw [fmLookup_optPair_self _ _ _ n3, fmErase_optPair_self _ _ _ n3]
  have o4 : optField
      (optPair "rst_rcvd".data q.rst_rcvd ++ (optPair "qth".data q.qth ++
        (optPair "name".data q.name ++
          (optPair "comment".data q.comment ++ q.additional_fields)))) "rst_rcvd".data =
      (q.rst_rcvd,
        optPair "qth".data q.qth ++ (optPair "name".data q.name ++
          (optPair "comment".data q.comment ++ q.additional_fields))) := by
    unfold optField
    rw [fmLookup_optPair_self _ _ _ n4, fmErase_optPair_self _ _ _ n4]
  have o5 : optField
      (optPair "qth".data q.qth ++ (optPair "name".data q.name ++
        (optPair "comment".data q.comment ++ q.additional_fields))) "qth".data =
      (q.qth,
        optPair "name".data q.name ++
          (optPair "comment".data q.comment ++ q.additional_fields)) := by
    unfold optField
    rw [fmLookup_optPair_self _ _ _ n5, fmErase_optPair_self _ _ _ n5]
  have o6 : optField
      (optPair "name".data q.name ++
        (optPair "comment".data q.comment ++ q.additional_fields)) "name".data =
      (q.name, optPair "comment".data q.comment ++ q.additional_fields) := by
    unfold optField
    rw [fmLookup_optPair_self _ _ _ n6, fmErase_optPair_self _ _ _ n6]
  have o7 : optField
      (optPair "comment".data q.comment ++ q.additional_fields) "comment".data =
      (q.comment, q.additional_fields) := by
    unfold optField
    rw [fmLookup_optPair_self _ _ _ n7, fmErase_optPair_self _ _ _ n7]
  have hpd : parse_date (formatDate q.qso_date) = .ok q.qso_date :=
    parse_date_formatDate _ h.year_lb h.year_ub h.month_lb h.month_ub h.day_lb h.day_ub
  have hpt : parse_time (format_time q.time_on) = .ok q.time_on :=
    parse_time_format_time_eta _ h.ton_h h.ton_m h.ton_s
  have hto : parseTimeOff (q.time_off.map format_time) = .ok q.time_off :=
    parseTimeOff_map _ (fun t ht => h.toff_ok t ht)
  have hfr : parseFreqOpt q.freq = .ok q.freq :=
    parseFreqOpt_eq _ (fun s hs => (h.freq_ok s hs).2.2)
  unfold fields_to_qso
  simp only [e1, ROut.ok_bind, e2, e3, e4, e5, hpd, e6, hpt, o1, hto, o2, hfr, o3, o4, o5,
    o6, o7]

end QrzAdif

namespace QrzAdif

/-- Decoding one encoded record body yields the record back. -/
theorem parse_single_adifBody (q : QsoRecord) (h : GoodRecord q) :
    parse_single_record (adifBody q) = .ok q := by
  unfold parse_single_record
  rw [tokenizeRecord_adifBody q h, ROut.ok_bind, fields_to_qso_emitPairs q h]

theorem adifBody_ne_nil (q : QsoRecord) : adifBody q ≠ [] := by
  unfold adifBody fieldTok
  intro hc
  simp at hc

/-- C1 (amended): for every record with ASCII values of `usize`-parsable
length, a valid date with 4-digit year, times representable at minute
precision (seconds 0, since encoding emits `%H%M`), ASCII lowercase tag-safe
`additional_fields` keys that are unique and avoid the thirteen named field
keys (ASCII so that the source's Unicode key lowercasing is the identity on
them, as it is in the model), a `freq` text in the `f64` grammar, no embedded
`<eor>` in the encoded body and a body unchanged by trimming,
`decode(encode(r))` succeeds and yields exactly the one-element sequence
`[r]` — in particular all mandatory fields, all populated optional fields,
and `additional_fields` (even as an ordered list, hence certainly as a set of
pairs) are preserved. -/
theorem C1_round_trip (q : QsoRecord) (h : GoodRecord q) :
    parse_adif (to_adif q) = .ok [q] := by
  unfold parse_adif to_adif
  have hsplit : splitEor (adifBody q ++ eorMarker) = [adifBody q, []] := by
    have h0 : adifBody q ++ eorMarker = adifBody q ++ eorMarker ++ [] := by simp
    rw [h0, splitEor_append _ _ h.no_eor]
    rfl
  rw [hsplit,
    parse_adif_list_cons_ok _ _ q (by rw [h.trim_id]; exact adifBody_ne_nil q)
      (by rw [h.trim_id]; exact parse_single_adifBody q h),
    parse_adif_list_cons_empty _ _ (by rfl), parse_adif_list_nil]
  rfl

/-- A record that is round-trippable except that `time_on` has seconds 45. -/
def cRecSeconds : QsoRecord :=
  { call := "W1AW".data, station_callsign := "K1ABC".data,
    qso_date := ⟨2024, 1, 15⟩, time_on := ⟨14, 30, 45⟩, time_off := none,
    band := "20m".data, mode := "SSB".data, freq := none, rst_sent := none,
    rst_rcvd := none, qth := none, name := none, comment := none,
    additional_fields := [] }

/-- The same record with the seconds dropped, as decode reproduces it. -/
def cRecMinutes : QsoRecord := { cRecSeconds with time_on := ⟨14, 30, 0⟩ }

/-- C1 (counterexample): the claim as stated fails — for a record whose
`time_on` has nonzero seconds (documented field set, ASCII values, no
additional fields), `decode(encode(r))` returns a single record whose
mandatory `time_on` field differs from `r`'s, because `to_adif` formats times
as `%H%M`. -/
theorem C1_counterexample :
    parse_adif (to_adif cRecSeconds) = .ok [cRecMinutes] ∧
      cRecMinutes.time_on ≠ cRecSeconds.time_on := by
  constructor
  · decide
  · decide

/-- A round-trippable record exercising every optional field, values with
`<`, `>`, `&`, and two additional fields. -/
def wRecFull : QsoRecord :=
  { call := "W1AW".data, station_callsign := "K1ABC".data,
    qso_date := ⟨2024, 1, 15⟩, time_on := ⟨14, 30, 0⟩,
    time_off := some ⟨15, 0, 0⟩, band := "20m".data, mode := "SSB".data,
    freq := some "14.205".data, rst_sent := some "59".data,
    rst_rcvd := some "57".data, qth := some "Newington, CT".data,
    name := some "Hiram".data, comment := some "ant <3el> & amp".data,
    additional_fields := [("gridsquare".data, "FN31pr".data), ("my_rig".data, "IC-7300".data)] }

/-- C1 witness: the amended round trip at a concrete record. -/
theorem C1_round_trip_witness : parse_adif (to_adif wRecFull) = .ok [wRecFull] :=
  C1_round_trip wRecFull (by constructor <;> decide)

end QrzAdif

namespace QrzAdif

/-! Claims C3, C5, C6, C7. -/

/-- A record whose `time_on` value is the 3-character, 4-byte text `1Ω0`:
`parse_time` appends `"00"`, passes the 6-byte length check, and then
byte-slices `[0..2]` inside the two-byte `Ω`. -/
def c3Input : Str :=
  "<call:4>W1AW<station_callsign:5>K1ABC<qso_date:8>20240115<time_on:3>1Ω0<band:3>20m<mode:3>SSB<eor>".data

/-- C3: decode is NOT total as the claim states — on a record whose `time_on`
value contains a multi-byte character straddling a slice boundary, the model
of `parse_adif` reaches the Rust panic (string byte-slice at a non-character
boundary), not an `Ok` or a parse `Err`. -/
theorem C3_decode_panics : parse_adif c3Input = ROut.panicked := by decide

/-- Unfold equations for `reqField`. -/
theorem reqField_some (m : AList) (k msg v : Str) (h : fmLookup m k = some v) :
    reqField m k msg = .ok (v, fmErase m k) := by
  unfold reqField
  rw [h]

theorem reqField_none (m : AList) (k msg : Str) (h : fmLookup m k = none) :
    reqField m k msg = .err msg := by
  unfold reqField
  rw [h]

theorem ROut.err_bind {α β : Type} (e : Str) (f : α → ROut β) :
    (ROut.err e).bind f = .err e := rfl

theorem fmLookup_fmErase_ne (m : AList) (k k' : Str) (h : k ≠ k') :
    fmLookup (fmErase m k) k' = fmLookup m k' := by
  induction m with
  | nil => rfl
  | cons p rest ih =>
    by_cases hp : p.1 = k
    · rw [show p = (p.1, p.2) from rfl, hp, fmErase_cons_self,
        fmLookup_cons_ne _ _ _ _ (hp ▸ h), ih]
    · rw [show p = (p.1, p.2) from rfl, fmErase_cons_ne _ _ _ _ hp]
      by_cases hp2 : p.1 = k'
      · rw [hp2, fmLookup_cons_self, fmLookup_cons_self]
      · rw [fmLookup_cons_ne _ _ _ _ hp2, fmLookup_cons_ne _ _ _ _ hp2, ih]

/-- The concrete input of the claim, with `station_callsign` omitted. -/
def c5Input : Str :=
  "<call:4>W1AW<qso_date:8>20240115<time_on:4>1430<band:3>20m<mode:3>SSB<eor>".data

/-- C5: when exactly one mandatory field is missing from the tokenized map
(the earlier ones in the source's removal order being present, and the date
parsing, when reached, succeeding), decode fails with the missing-field error
naming that field; in particular the claim's concrete input (missing
`station_callsign`) fails with exactly that error. -/
theorem C5_missing_mandatory :
    (∀ m : AList,
      (fmLookup m "call".data = none → fields_to_qso m = .err "Missing call field".data) ∧
      (∀ v1, fmLookup m "call".data = some v1 →
        fmLookup m "station_callsign".data = none →
        fields_to_qso m = .err "Missing station_callsign field".data) ∧
      (∀ v1 v2, fmLookup m "call".data = some v1 →
        fmLookup m "station_callsign".data = some v2 →
        fmLookup m "band".data = none →
        fields_to_qso m = .err "Missing band field".data) ∧
      (∀ v1 v2 v3, fmLookup m "call".data = some v1 →
        fmLookup m "station_callsign".data = some v2 →
        fmLookup m "band".data = some v3 →
        fmLookup m "mode".data = none →
        fields_to_qso m = .err "Missing mode field".data) ∧
      (∀ v1 v2 v3 v4, fmLookup m "call".data = some v1 →
        fmLookup m "station_callsign".data = some v2 →
        fmLookup m "band".data = some v3 →
        fmLookup m "mode".data = some v4 →
        fmLookup m "qso_date".data = none →
        fields_to_qso m = .err "Missing qso_date field".data) ∧
      (∀ v1 v2 v3 v4 ds d, fmLookup m "call".data = some v1 →
        fmLookup m "station_callsign".data = some v2 →
        fmLookup m "band".data = some v3 →
        fmLookup m "mode".data = some v4 →
        fmLookup m "qso_date".data = some ds →
        parse_date ds = .ok d →
        fmLookup m "time_on".data = none →
        fields_to_qso m = .err "Missing time_on field".data)) ∧
    parse_adif c5Input = .err "Missing station_callsign field".data := by
  constructor
  · intro m
    refine ⟨?_, ?_, ?_, ?_, ?_, ?_⟩
    · intro h1
      unfold fields_to_qso
      rw [reqField_none _ _ _ h1, ROut.err_bind]
    · intro v1 h1 h2
      unfold fields_to_qso
      rw [reqField_some _ _ _ _ h1, ROut.ok_bind,
        reqField_none _ _ _ (by rw [fmLookup_fmErase_ne _ _ _ (by decide)]; exact h2),
        ROut.err_bind]
    · intro v1 v2 h1 h2 h3
      unfold fields_to_qso
      rw [reqField_some _ _ _ _ h1, ROut.ok_bind,
        reqField_some _ _ _ _ (by rw [fmLookup_fmErase_ne _ _ _ (by decide)]; exact h2),
        ROut.ok_bind,
        reqField_none _ _ _ (by
          rw [fmLookup_fmErase_ne _ _ _ (by decide), fmLookup_fmErase_ne _ _ _ (by decide)]
          exact h3),
        ROut.err_bind]
    · intro v1 v2 v3 h1 h2 h3 h4
      unfold fields_to_qso
      rw [reqField_some _ _ _ _ h1, ROut.ok_bind,
        reqField_some _ _ _ _ (by rw [fmLookup_fmErase_ne _ _ _ (by decide)]; exact h2),
        ROut.ok_bind,
        reqField_some _ _ _ _ (by
          rw [fmLookup_fmErase_ne _ _ _ (by decide), fmLookup_fmErase_ne _ _ _ (by decide)]
          exact h3),
        ROut.ok_bind,
        reqField_none _ _ _ (by
          rw [fmLookup_fmErase_ne _ _ _ (by decide), fmLookup_fmErase_ne _ _ _ (by decide),
            fmLookup_fmErase_ne _ _ _ (by decide)]
          exact h4),
        ROut.err_bind]
    · intro v1 v2 v3 v4 h1 h2 h3 h4 h5
      unfold fields_to_qso
      rw [reqField_some _ _ _ _ h1, ROut.ok_bind,
        reqField_some _ _ _ _ (by rw [fmLookup_fmErase_ne _ _ _ (by decide)]; exact h2),
        ROut.ok_bind,
        reqField_some _ _ _ _ (by
          rw [fmLookup_fmErase_ne _ _ _ (by decide), fmLookup_fmErase_ne _ _ _ (by decide)]
          exact h3),
        ROut.ok_bind,
        reqField_some _ _ _ _ (by
          rw [fmLookup_fmErase_ne _ _ _ (by decide), fmLookup_fmErase_ne _ _ _ (by decide),
            fmLookup_fmErase_ne _ _ _ (by decide)]
          exact h4),
        ROut.ok_bind,
        reqField_none _ _ _ (by
          rw [fmLookup_fmErase_ne _ _ _ (by decide), fmLookup_fmErase_ne _ _ _ (by decide),
            fmLookup_fmErase_ne _ _ _ (by decide), fmLookup_fmErase_ne _ _ _ (by decide)]
          exact h5),
        ROut.err_bind]
    · intro v1 v2 v3 v4 ds d h1 h2 h3 h4 h5 h6 h7
      unfold fields_to_qso
      rw [reqField_some _ _ _ _ h1, ROut.ok_bind,
        reqField_some _ _ _ _ (by rw [fmLookup_fmErase_ne _ _ _ (by decide)]; exact h2),
        ROut.ok_bind,
        reqField_some _ _ _ _ (by
          rw [fmLookup_fmErase_ne _ _ _ (by decide), fmLookup_fmErase_ne _ _ _ (by decide)]
          exact h3),
        ROut.ok_bind,
        reqField_some _ _ _ _ (by
          rw [fmLookup_fmErase_ne _ _ _ (by decide), fmLookup_fmErase_ne _ _ _ (by decide),
            fmLookup_fmErase_ne _ _ _ (by decide)]
          exact h4),
        ROut.ok_bind,
        reqField_some _ _ _ _ (by
          rw [fmLookup_fmErase_ne _ _ _ (by decide), fmLookup_fmErase_ne _ _ _ (by decide),
            fmLookup_fmErase_ne _ _ _ (by decide), fmLookup_fmErase_ne _ _ _ (by decide)]
          exact h5),
        ROut.ok_bind, h6, ROut.ok_bind,
        reqField_none _ _ _ (by
          rw [fmLookup_fmErase_ne _ _ _ (by decide), fmLookup_fmErase_ne _ _ _ (by decide),
            fmLookup_fmErase_ne _ _ _ (by decide), fmLookup_fmErase_ne _ _ _ (by decide),
            fmLookup_fmErase_ne _ _ _ (by decide)]
          exact h7),
        ROut.err_bind]
  · decide

/-- C5 witness: the six missing-field errors at concrete maps, and the
concrete input, via `C5_missing_mandatory`. -/
theorem C5_missing_mandatory_witness :
    fields_to_qso [] = .err "Missing call field".data ∧
    fields_to_qso [("call".data, "W1AW".data)] =
      .err "Missing station_callsign field".data ∧
    fields_to_qso [("call".data, "W1AW".data), ("station_callsign".data, "K1ABC".data)] =
      .err "Missing band field".data ∧
    fields_to_qso [("call".data, "W1AW".data), ("station_callsign".data, "K1ABC".data),
      ("band".data, "20m".data)] = .err "Missing mode field".data ∧
    fields_to_qso [("call".data, "W1AW".data), ("station_callsign".data, "K1ABC".data),
      ("band".data, "20m".data), ("mode".data, "SSB".data)] =
      .err "Missing qso_date field".data ∧
    fields_to_qso [("call".data, "W1AW".data), ("station_callsign".data, "K1ABC".data),
      ("band".data, "20m".data), ("mode".data, "SSB".data),
      ("qso_date".data, "20240115".data)] = .err "Missing time_on field".data := by
  refine ⟨(C5_missing_mandatory.1 _).1 (by decide),
    (C5_missing_mandatory.1 _).2.1 "W1AW".data (by decide) (by decide),
    (C5_missing_mandatory.1 _).2.2.1 "W1AW".data "K1ABC".data (by decide) (by decide)
      (by decide),
    (C5_missing_mandatory.1 _).2.2.2.1 "W1AW".data "K1ABC".data "20m".data (by decide)
      (by decide) (by decide) (by decide),
    (C5_missing_mandatory.1 _).2.2.2.2.1 "W1AW".data "K1ABC".data "20m".data "SSB".data
      (by decide) (by decide) (by decide) (by decide) (by decide),
    (C5_missing_mandatory.1 _).2.2.2.2.2 "W1AW".data "K1ABC".data "20m".data "SSB".data
      "20240115".data ⟨2024, 1, 15⟩ (by decide) (by decide) (by decide) (by decide)
      (by decide) (by decide) (by decide)⟩

/-- Input whose `qso_date` value `202Ω401` is 7 characters but 8 bytes: the
length check passes and the year slice `[0..4]` falls inside `Ω`. -/
def c6PanicInput : Str :=
  "<call:4>W1AW<station_callsign:5>K1ABC<qso_date:7>202Ω401<time_on:4>1430<band:3>20m<mode:3>SSB<eor>".data

/-- The claim's record with month 13. -/
def c6Month13Input : Str :=
  "<call:4>W1AW<station_callsign:5>K1ABC<qso_date:8>20241301<time_on:4>1430<band:3>20m<mode:3>SSB<eor>".data

/-- C6: the date-validation examples behave as claimed — month 13 and Feb 30
fail with a parse error, `20240115` yields year 2024, month 1, day 15 — but
the universal sentence fails on the code: a `qso_date` value that is not 8
characters can make decode panic (byte slice inside a multi-byte character)
instead of failing with a parse error. -/
theorem C6_date_validation :
    parse_adif c6Month13Input = .err "Invalid date".data ∧
    parse_date "20240230".data = .err "Invalid date".data ∧
    parse_date "20240115".data = .ok ⟨2024, 1, 15⟩ ∧
    parse_adif c6PanicInput = ROut.panicked := by
  refine ⟨by decide, by decide, by decide, by decide⟩

/-- The claim's record with time `2561`. -/
def c7BadTimeInput : Str :=
  "<call:4>W1AW<station_callsign:5>K1ABC<qso_date:8>20240115<time_on:4>2561<band:3>20m<mode:3>SSB<eor>".data

/-- A record whose optional `time_off` value `1Ω0` makes `parse_time` panic. -/
def c7OffPanicInput : Str :=
  "<call:4>W1AW<station_callsign:5>K1ABC<qso_date:8>20240115<time_on:4>1430<time_off:3>1Ω0<band:3>20m<mode:3>SSB<eor>".data

/-- C7: `1430` and `143000` decode to the same 14:30:00, `2561` fails with a
parse error (also at decode level), and the same rule applies to `time_off` —
but the universal "any other length fails with a parse error" is violated by
the code: a 3-character, 4-byte `time_off` value makes decode panic. -/
theorem C7_time_validation :
    parse_time "1430".data = .ok ⟨14, 30, 0⟩ ∧
    parse_time "143000".data = .ok ⟨14, 30, 0⟩ ∧
    parse_time "2561".data = .err "Invalid time".data ∧
    parse_adif c7BadTimeInput = .err "Invalid time".data ∧
    parse_adif c7OffPanicInput = ROut.panicked := by
  refine ⟨by decide, by decide, by decide, by decide, by decide⟩

end QrzAdif

namespace QrzAdif

/-! Claims C9 and C10. -/

/-- C9: field value extraction depends only on the declared length — for any
tag `<nm:L>` whose length text parses to exactly the length of `v`, the
tokenizer takes `v` (arbitrary characters, including `<`, `>`, `&`) as the
value, records the lowercased name with it, and resumes scanning immediately
after it. -/
theorem C9_length_driven_extraction (m : AList) (nm L v rest : Str)
    (hnm : ∀ c ∈ nm, c ≠ ':' ∧ c ≠ '>') (hL : ∀ c ∈ L, c ≠ '>')
    (hparse : parseUsizeRust L = some v.length) :
    tokRun m ('<' :: (nm ++ ':' :: (L ++ '>' :: (v ++ rest)))) =
      tokRun (fmInsert m (rustToLowercase nm) v) rest := by
  unfold tokRun
  have hsh : '<' :: (nm ++ ':' :: (L ++ '>' :: (v ++ rest))) =
      ('<' :: (nm ++ ':' :: (L ++ '>' :: v))) ++ rest := by
    simp
  rw [hsh, List.foldl_append, tokRun_fieldTok_gen m nm L v hnm hL hparse]

/-- C9 witness: a value containing `<`, `>` and `&` is taken whole, driven
only by the declared length, and scanning resumes after it. -/
theorem C9_length_driven_extraction_witness :
    tokRun [] ('<' :: ("x".data ++ ':' :: ("5".data ++ '>' ::
        ("a<&>b".data ++ "<mode:2>CW".data)))) =
      tokRun (fmInsert [] "x".data "a<&>b".data) "<mode:2>CW".data :=
  C9_length_driven_extraction [] "x".data "5".data "a<&>b".data "<mode:2>CW".data
    (by decide) (by decide) (by decide)

/-- C10: a record text ending in an unclosed tag — `<` followed by text with
no closing `>` (with or without a `:` and length digits) — makes the
tokenizer stop silently: decoding the extended text gives exactly the same
result as assembling the fields collected before the truncated tag, which is
also the decode of the clean prefix; no parse error is raised for the
truncated tail. -/
theorem C10_truncated_tag (s : Str) (m : AList) (nm : Str)
    (hs : tokRun [] s = .ok (m, .scan)) (hnm : '>' ∉ nm) :
    parse_single_record (s ++ '<' :: nm) = fields_to_qso m ∧
      parse_single_record s = fields_to_qso m := by
  obtain ⟨st, hrun, hfin⟩ := tokRun_truncated_from_inName m nm [] hnm
  constructor
  · unfold parse_single_record tokenizeRecord tokRun
    unfold tokRun at hs
    rw [List.foldl_append, hs, List.foldl_cons, tokStep_ok, tokStep1_scan_lt, hrun,
      ROut.ok_bind, hfin, ROut.ok_bind]
  · unfold parse_single_record tokenizeRecord
    rw [hs, ROut.ok_bind]
    show (tokFinish (m, .scan)).bind fields_to_qso = fields_to_qso m
    rw [show tokFinish (m, .scan) = .ok m from rfl, ROut.ok_bind]

/-- C10 witness: a full record followed by the unclosed tag `<comm` decodes
exactly like the clean record — successfully, with the truncated tail
dropped. -/
theorem C10_truncated_tag_witness :
    parse_single_record
        ("<call:4>W1AW<station_callsign:5>K1ABC<qso_date:8>20240115<time_on:4>1430<band:3>20m<mode:3>SSB".data
          ++ '<' :: "comm".data) =
      fields_to_qso
        [("call".data, "W1AW".data), ("station_callsign".data, "K1ABC".data),
         ("qso_date".data, "20240115".data), ("time_on".data, "1430".data),
         ("band".data, "20m".data), ("mode".data, "SSB".data)] ∧
    parse_single_record
        "<call:4>W1AW<station_callsign:5>K1ABC<qso_date:8>20240115<time_on:4>1430<band:3>20m<mode:3>SSB".data =
      fields_to_qso
        [("call".data, "W1AW".data), ("station_callsign".data, "K1ABC".data),
         ("qso_date".data, "20240115".data), ("time_on".data, "1430".data),
         ("band".data, "20m".data), ("mode".data, "SSB".data)] :=
  C10_truncated_tag _ _ "comm".data (by decide) (by decide)

end QrzAdif

namespace QrzAdif

/-! Claim C2. -/

/-- The claim's length check manually violated with a too-short length: the
`call` value `W1AW` declared with length 2. -/
def c2TruncInput : Str :=
  "<call:2>W1AW<station_callsign:5>K1ABC<qso_date:8>20240115<time_on:4>1430<band:3>20m<mode:3>SSB<eor>".data

/-- The record decode actually produces for `c2TruncInput`: the call is
silently truncated to `W1` and the leftover `AW` is skipped. -/
def c2TruncRec : QsoRecord :=
  { call := "W1".data, station_callsign := "K1ABC".data,
    qso_date := ⟨2024, 1, 15⟩, time_on := ⟨14, 30, 0⟩, time_off := none,
    band := "20m".data, mode := "SSB".data, freq := none, rst_sent := none,
    rst_rcvd := none, qth := none, name := none, comment := none,
    additional_fields := [] }

/-- C2 (counterexample): a hand-crafted wrong (too-short) declared length does
NOT cause a parse error — decode succeeds, silently truncating the value to
the declared length. -/
theorem C2_counterexample : parse_adif c2TruncInput = .ok [c2TruncRec] := by decide

/-- C2 (amended): for round-trippable records the emitted text is a
concatenation of `<name:len>value` tokens (plus the marker) in which every
declared length is the byte length of the value and equals its character
count (values being ASCII); on decode, a declared length exceeding the
remaining record text causes the "Field value extends beyond record" parse
error provided the source's `value_start + length` sum — here
`nm.length + L.length + 3 + n` — fits in `usize` (for larger declared
lengths the program panics on the overflowing add or the wrapped slice
instead of returning this error, so the bound is carried as an explicit
hypothesis), while a declared length smaller than the value's extent
silently truncates (no error), as the counterexample shows. -/
theorem C2_length_fidelity (q : QsoRecord) (h : GoodRecord q)
    (nm L tail : Str) (n : Nat)
    (hnm : ∀ c ∈ nm, c ≠ ':' ∧ c ≠ '>') (hL : ∀ c ∈ L, c ≠ '>')
    (hparse : parseUsizeRust L = some n) (hover : tail.length < n)
    ( _hfit : nm.length + L.length + 3 + n < 2 ^ 64) :
    (to_adif q = emitTokens (emitPairs q) ++ eorMarker ∧
      ∀ p ∈ emitPairs q, byteLen p.2 = p.2.length) ∧
    tokenizeRecord ('<' :: (nm ++ ':' :: (L ++ '>' :: tail))) =
      .err "Field value extends beyond record".data := by
  refine ⟨⟨?_, ?_⟩, ?_⟩
  · unfold to_adif
    rw [adifBody_eq_emit q (formatDate_bytes q h) (fun p hp => (h.addl_ok p hp).1)]
  · intro p hp
    exact byteLen_eq_length p.2 (emitPairs_good q h p hp).2.2.1
  · unfold tokenizeRecord tokRun
    rw [List.foldl_cons, tokStep_ok, tokStep1_scan_lt, List.foldl_append,
      tokRun_inName [] nm hnm [], List.nil_append, List.foldl_cons, tokStep_ok,
      tokStep1_inName_colon, List.foldl_append, tokRun_inLen [] (rustToLowercase nm) L hL [],
      List.nil_append, List.foldl_cons, tokStep_ok,
      tokStep1_inLen_gt_pos [] (rustToLowercase nm) L n hparse (by omega),
      tokRun_inValue_partial [] (rustToLowercase nm) tail n [] hover]
    rfl

/-- C2 witness: instantiates the amended claim at a concrete record and a
concrete over-long (but non-overflowing) declared length. -/
theorem C2_length_fidelity_witness :
    (to_adif wRecFull = emitTokens (emitPairs wRecFull) ++ eorMarker ∧
      ∀ p ∈ emitPairs wRecFull, byteLen p.2 = p.2.length) ∧
    tokenizeRecord ('<' :: ("call".data ++ ':' :: ("9".data ++ '>' :: "W1AW".data))) =
      .err "Field value extends beyond record".data :=
  C2_length_fidelity wRecFull (by constructor <;> decide) "call".data "9".data
    "W1AW".data 9 (by decide) (by decide) (by decide) (by decide) (by decide)

end QrzAdif

namespace QrzAdif

/-! Claim C4. -/

/-- An uppercase `<EOR>` does not split: the splitter passes over it. -/
theorem splitEor_append_EOR (r : Str) (h : ¬eorMarker <:+: r) :
    splitEor (r ++ "<EOR>".data) = [r ++ "<EOR>".data] := by
  unfold splitEor
  rw [show ("<EOR>".data : Str) = ['<', 'E', 'O', 'R', '>'] from rfl]
  rw [List.foldl_append, splitRun_no_marker r h []]
  have e1 := splitStep_not_suffix [] r '<' (not_marker_suffix_snoc_prop r '<' (by decide))
  have e2 := splitStep_not_suffix [] (r ++ ['<']) 'E'
    (not_marker_suffix_snoc_prop _ 'E' (by decide))
  have e3 := splitStep_not_suffix [] (r ++ ['<'] ++ ['E']) 'O'
    (not_marker_suffix_snoc_prop _ 'O' (by decide))
  have e4 := splitStep_not_suffix [] (r ++ ['<'] ++ ['E'] ++ ['O']) 'R'
    (not_marker_suffix_snoc_prop _ 'R' (by decide))
  have hnf : ¬eorMarker <:+ ((r ++ ['<'] ++ ['E'] ++ ['O'] ++ ['R']) ++ ['>']) := by
    intro hs
    obtain ⟨t, ht⟩ := hs
    have hcur : (r ++ ['<'] ++ ['E'] ++ ['O'] ++ ['R']) ++ ['>'] =
        r ++ ['<', 'E', 'O', 'R', '>'] := by simp
    rw [hcur, show (eorMarker : Str) = ['<', 'e', 'o', 'r', '>'] from rfl] at ht
    have hlen : t.length = r.length := by
      have hl := congrArg List.length ht
      simp at hl
      omega
    obtain ⟨-, h2⟩ := List.append_inj ht hlen
    exact (by decide : ¬(['<', 'e', 'o', 'r', '>'] = ['<', 'E', 'O', 'R', '>'])) h2
  have e5 := splitStep_not_suffix [] (r ++ ['<'] ++ ['E'] ++ ['O'] ++ ['R']) '>' hnf
  rw [List.foldl_cons, e1, List.foldl_cons, e2, List.foldl_cons, e3, List.foldl_cons, e4,
    List.foldl_cons, e5, List.foldl_nil]
  simp

/-- C4 (amended): encode always terminates its output with the literal
lowercase `<eor>`; on decode only the lowercase marker splits records, while
a non-lowercase marker such as `<EOR>` is merely consumed as a length-less
tag inside the record — so a single cleanly-tokenized record terminated by
`<EOR>` still decodes to the same one-record result as with `<eor>` (the
case-insensitivity the claim states holds only in this single-record sense;
multi-record inputs with non-lowercase separators are merged, see the
counterexample). -/
theorem C4_eor_marker (q : QsoRecord) (r : Str) (m : AList) (qr : QsoRecord)
    (hnoeor : ¬eorMarker <:+: r) (htrim : trim r = r) (hne : r ≠ [])
    (hrun : tokRun [] r = .ok (m, .scan)) (hfq : fields_to_qso m = .ok qr) :
    to_adif q = adifBody q ++ eorMarker ∧
      parse_adif (r ++ "<EOR>".data) = .ok [qr] ∧
      parse_adif (r ++ eorMarker) = .ok [qr] := by
  refine ⟨rfl, ?_, ?_⟩
  · unfold parse_adif
    rw [splitEor_append_EOR r hnoeor]
    have htr : trim (r ++ "<EOR>".data) = r ++ "<EOR>".data :=
      trim_append_keep r _ htrim hne (by decide) (by decide)
    have hparse : parse_single_record (trim (r ++ "<EOR>".data)) = .ok qr := by
      rw [htr]
      unfold parse_single_record tokenizeRecord tokRun
      unfold tokRun at hrun
      rw [show ("<EOR>".data : Str) = ['<', 'E', 'O', 'R', '>'] from rfl]
      rw [List.foldl_append, hrun, List.foldl_cons, tokStep_ok, tokStep1_scan_lt,
        List.foldl_cons, tokStep_ok, tokStep1_inName_other _ _ _ (by decide) (by decide),
        List.foldl_cons, tokStep_ok, tokStep1_inName_other _ _ _ (by decide) (by decide),
        List.foldl_cons, tokStep_ok, tokStep1_inName_other _ _ _ (by decide) (by decide),
        List.foldl_cons, tokStep_ok, tokStep1_inName_gt, List.foldl_nil, ROut.ok_bind]
      show (tokFinish (m, .scan)).bind fields_to_qso = _
      rw [show tokFinish (m, .scan) = .ok m from rfl, ROut.ok_bind, hfq]
    rw [parse_adif_list_cons_ok _ _ qr (by
        rw [htr]
        intro hc
        simp at hc) hparse, parse_adif_list_nil]
    rfl
  · unfold parse_adif
    have h0 : r ++ eorMarker = r ++ eorMarker ++ [] := by simp
    rw [h0, splitEor_append _ _ hnoeor]
    have hparse : parse_single_record (trim r) = .ok qr := by
      rw [htrim]
      unfold parse_single_record tokenizeRecord
      rw [hrun, ROut.ok_bind]
      show (tokFinish (m, .scan)).bind fields_to_qso = _
      rw [show tokFinish (m, .scan) = .ok m from rfl, ROut.ok_bind, hfq]
    rw [parse_adif_list_cons_ok _ _ qr (by rw [htrim]; exact hne) hparse,
      show splitEor [] = [[]] from rfl,
      parse_adif_list_cons_empty _ _ (by rfl), parse_adif_list_nil]
    rfl

def c4Text1 : Str :=
  "<call:4>W1AW<station_callsign:5>K1ABC<qso_date:8>20240115<time_on:4>1430<band:3>20m<mode:3>SSB".data

def c4Text2 : Str :=
  "<call:4>K9XY<station_callsign:5>K1ABC<qso_date:8>20240116<time_on:4>1530<band:3>40m<mode:2>CW".data

def c4Rec1 : QsoRecord :=
  { call := "W1AW".data, station_callsign := "K1ABC".data,
    qso_date := ⟨2024, 1, 15⟩, time_on := ⟨14, 30, 0⟩, time_off := none,
    band := "20m".data, mode := "SSB".data, freq := none, rst_sent := none,
    rst_rcvd := none, qth := none, name := none, comment := none,
    additional_fields := [] }

def c4Rec2 : QsoRecord :=
  { call := "K9XY".data, station_callsign := "K1ABC".data,
    qso_date := ⟨2024, 1, 16⟩, time_on := ⟨15, 30, 0⟩, time_off := none,
    band := "40m".data, mode := "CW".data, freq := none, rst_sent := none,
    rst_rcvd := none, qth := none, name := none, comment := none,
    additional_fields := [] }

/-- C4 (counterexample): a well-formed two-record input whose separators are
written `<EOR>` decodes to a single merged record (the second record's fields
overwrite the first's), NOT to the same two-record sequence obtained with
lowercase `<eor>` separators. -/
theorem C4_counterexample :
    parse_adif (c4Text1 ++ "<EOR>".data ++ c4Text2 ++ "<EOR>".data) = .ok [c4Rec2] ∧
    parse_adif (c4Text1 ++ eorMarker ++ c4Text2 ++ eorMarker) = .ok [c4Rec1, c4Rec2] ∧
    ([c4Rec2] : List QsoRecord) ≠ [c4Rec1, c4Rec2] := by
  refine ⟨by decide, by decide, by decide⟩

/-- C4 witness: the amended claim at a concrete record and record text. -/
theorem C4_eor_marker_witness :
    to_adif c4Rec2 = adifBody c4Rec2 ++ eorMarker ∧
      parse_adif (c4Text1 ++ "<EOR>".data) = .ok [c4Rec1] ∧
      parse_adif (c4Text1 ++ eorMarker) = .ok [c4Rec1] :=
  C4_eor_marker c4Rec2 c4Text1
    [("call".data, "W1AW".data), ("station_callsign".data, "K1ABC".data),
     ("qso_date".data, "20240115".data), ("time_on".data, "1430".data),
     ("band".data, "20m".data), ("mode".data, "SSB".data)]
    c4Rec1 (by decide) (by decide) (by decide) (by decide) (by decide)

end QrzAdif

namespace QrzAdif

/-! Claim C8. -/

/-- A list of record texts, each followed by the lowercase marker and then
arbitrary padding, concatenated in order. -/
def assembleRecords : List (Str × Str) → Str
  | [] => []
  | (r, w) :: rest => r ++ eorMarker ++ (w ++ assembleRecords rest)

/-- One record-text/padding pair decodes to the given record: the text is
marker-free and non-blank, its trimmed form parses to the record, and the
padding after the marker is all whitespace. -/
def RecordsTo (p : Str × Str) (q : QsoRecord) : Prop :=
  ¬eorMarker <:+: p.1 ∧ trim p.1 ≠ [] ∧
    parse_single_record (trim p.1) = .ok q ∧ ∀ c ∈ p.2, rustIsWhitespace c = true

theorem parse_adif_assemble (l : List (Str × Str)) (qs : List QsoRecord) (w0 : Str)
    (hw0 : ∀ c ∈ w0, rustIsWhitespace c = true)
    (h : List.Forall₂ RecordsTo l qs) :
    parse_adif_list (splitEor (w0 ++ assembleRecords l)) = .ok qs := by
  induction h generalizing w0 hw0 with
  | nil =>
    rw [show assembleRecords [] = [] from rfl, List.append_nil,
      splitEor_no_marker w0 (not_marker_infix_ws w0 hw0),
      parse_adif_list_cons_empty _ _ (trim_all_ws w0 hw0), parse_adif_list_nil]
  | @cons p q l₁ l₂ hpq hrest ih =>
    obtain ⟨r, w⟩ := p
    obtain ⟨hm, hne, hps, hwv⟩ := hpq
    have hasm : w0 ++ assembleRecords ((r, w) :: l₁) =
        (w0 ++ r) ++ eorMarker ++ (w ++ assembleRecords l₁) := by
      rw [show assembleRecords ((r, w) :: l₁) =
        r ++ eorMarker ++ (w ++ assembleRecords l₁) from rfl]
      simp [List.append_assoc]
    rw [hasm, splitEor_append _ _ (not_marker_infix_ws_append w0 r hw0 hm),
      parse_adif_list_cons_ok _ _ q (by rw [trim_ws_append w0 r hw0]; exact hne)
        (by rw [trim_ws_append w0 r hw0]; exact hps),
      ih w hwv]
    rfl

/-- C8: decoding the concatenation of N well-formed marker-terminated record
texts, with arbitrary whitespace after each marker (hence between records and
after the final one), succeeds and yields exactly those N records in the
original order; and the empty string decodes to the empty sequence. -/
theorem C8_multiplicity (l : List (Str × Str)) (qs : List QsoRecord)
    (h : List.Forall₂ RecordsTo l qs) :
    parse_adif (assembleRecords l) = .ok qs ∧ qs.length = l.length ∧
      parse_adif [] = .ok [] := by
  refine ⟨?_, h.length_eq.symm, by decide⟩
  have haux := parse_adif_assemble l qs [] (by intro c hc; cases hc) h
  rw [List.nil_append] at haux
  unfold parse_adif
  exact haux

def c8Pair1 : Str × Str :=
  ("<call:5>AB1CD<station_callsign:4>XY9Z<qso_date:8>20230601<time_on:4>0945<band:3>10m<mode:3>FT8".data,
   " \n\t".data)

def c8Pair2 : Str × Str :=
  ("<call:5>DL1AA<station_callsign:4>XY9Z<qso_date:8>20230602<time_on:6>101530<band:3>15m<mode:2>CW".data,
   "\n".data)

def c8Rec1 : QsoRecord :=
  { call := "AB1CD".data, station_callsign := "XY9Z".data,
    qso_date := ⟨2023, 6, 1⟩, time_on := ⟨9, 45, 0⟩, time_off := none,
    band := "10m".data, mode := "FT8".data, freq := none, rst_sent := none,
    rst_rcvd := none, qth := none, name := none, comment := none,
    additional_fields := [] }

def c8Rec2 : QsoRecord :=
  { call := "DL1AA".data, station_callsign := "XY9Z".data,
    qso_date := ⟨2023, 6, 2⟩, time_on := ⟨10, 15, 30⟩, time_off := none,
    band := "15m".data, mode := "CW".data, freq := none, rst_sent := none,
    rst_rcvd := none, qth := none, name := none, comment := none,
    additional_fields := [] }

/-- C8 witness: two concrete records with trailing whitespace decode to the
two-record sequence. -/
theorem C8_multiplicity_witness :
    parse_adif (assembleRecords [c8Pair1, c8Pair2]) = .ok [c8Rec1, c8Rec2] ∧
      ([c8Rec1, c8Rec2] : List QsoRecord).length = [c8Pair1, c8Pair2].length ∧
      parse_adif [] = .ok [] :=
  C8_multiplicity [c8Pair1, c8Pair2] [c8Rec1, c8Rec2]
    (List.Forall₂.cons ⟨by decide, by decide, by decide, by decide⟩
      (List.Forall₂.cons ⟨by decide, by decide, by decide, by decide⟩ List.Forall₂.nil))

end QrzAdif
